import Mathlib

/-!
# Verification of the qwik incremental tree-reconciliation core

Shallow embedding of `src/e2e-isolated/utils/index.ts`: the diff engine
(`vnode_diff` with its helpers `expectText`, `expectElement`, `setBulkProps`,
`retrieveChildWithKey`, `expectVirtual`, `expectSlot`, `expectComponent`,
`expectNoMore`, `expectNoMoreTextNodes`, `advance`) and the journal applier
(`vnode_applyJournal`), together with `shallowEqual`.

The persistent-tree node representation and its primitive mutators live in the
external module `./vnode` (not part of this repository's sources); those are
modelled from the spec (section 3 "Persistent tree node" and section 6
"Tree primitives") and are marked `Modelled from the spec:` below.

Conventions of the embedding:
* VNodes are heap cells addressed by natural-number ids; node identity is the id.
* The sorted association list of an element/virtual node holds its attributes
  and the reconciliation key (`q:key`), as the spec's data model describes.
  The stored render-function reference and props snapshot are resolver-mediated
  references; they are modelled as dedicated fields of the node record.
* JavaScript `undefined` vs `null` for jsx keys is tracked exactly where the
  source distinguishes them (the short-circuited `jsxKey` in `expectElement`).
-/

/-- Attribute / journal / prop values.  JavaScript compares these with `===`
(reference equality for objects, value equality for primitives); `qrl` and
`obj` are opaque object references identified by a numeral. -/
inductive Val where
  | str : String → Val
  | num : Int → Val
  | null : Val
  | qrl : Nat → Val
  | obj : Nat → Val
deriving DecidableEq, Repr

/-- Node discriminant (element / text / fragment-like "virtual"). -/
inductive NodeKind where
  | element : NodeKind
  | text : NodeKind
  | virtual : NodeKind
deriving DecidableEq, Repr

/-- Modelled from the spec: a persistent tree node ("VNode") of the external
tree module: discriminant, tag (elements), text value (text nodes), a sorted
association list of string keys to values (attributes and the reconciliation
key `q:key`), the stored render-function reference and props snapshot of a
component host (resolver-mediated references, held as fields), and the ordered
child list. -/
structure VNodeData where
  kind : NodeKind
  tag : String
  txt : String
  attrs : List (String × Val)
  renderQrl : Option Nat
  props : Option (List (String × Val))
  children : List Nat
deriving DecidableEq, Repr

/-- The node store: an association list from ids to node data plus the next
fresh id. -/
structure Heap where
  nodes : List (Nat × VNodeData)
  nextId : Nat
deriving DecidableEq, Repr

def setAssoc : List (Nat × VNodeData) → Nat → VNodeData → List (Nat × VNodeData)
  | [], i, d => [(i, d)]
  | (j, e) :: rest, i, d =>
    if j = i then (i, d) :: rest else (j, e) :: setAssoc rest i d

def Heap.get? (h : Heap) (i : Nat) : Option VNodeData :=
  (h.nodes.find? (fun p => p.1 == i)).map (fun p => p.2)

def Heap.set (h : Heap) (i : Nat) (d : VNodeData) : Heap :=
  { h with nodes := setAssoc h.nodes i d }

def Heap.modify (h : Heap) (i : Nat) (f : VNodeData → VNodeData) : Heap :=
  match h.get? i with
  | some d => h.set i (f d)
  | none => h

def Heap.alloc (h : Heap) (d : VNodeData) : Nat × Heap :=
  (h.nextId, { nodes := h.nodes ++ [(h.nextId, d)], nextId := h.nextId + 1 })

/-- Marker constants (external `util/markers`). -/
def ELEMENT_KEY : String := "q:key"
def OnRenderProp : String := "q:renderFn"

/-- Modelled from the spec: `mapArray_set` of the external vnode module keeps
the association list sorted by key, inserting or replacing. The spec gives no
removal semantics for a `null` value, so `null` is stored like any value. -/
def mapSet : List (String × Val) → String → Val → List (String × Val)
  | [], k, v => [(k, v)]
  | (k', v') :: rest, k, v =>
    if k < k' then (k, v) :: (k', v') :: rest
    else if k = k' then (k, v) :: rest
    else (k', v') :: mapSet rest k v

def mapGet (l : List (String × Val)) (k : String) : Option Val :=
  (l.find? (fun p => p.1 == k)).map (fun p => p.2)

/-- JavaScript `String.prototype.startsWith`, over the character sequence. -/
def jsStartsWith (s p : String) : Bool := p.data.isPrefixOf s.data

/-- JavaScript `String.prototype.endsWith`, over the character sequence. -/
def jsEndsWith (s p : String) : Bool := p.data.isSuffixOf s.data

/-- Modelled from the spec: tree read primitives of the external vnode module. -/
def childrenOf (h : Heap) (p : Nat) : List Nat :=
  match h.get? p with
  | some d => d.children
  | none => []

def vnode_getFirstChild (h : Heap) (p : Nat) : Option Nat :=
  (childrenOf h p).head?

def nextAfter : List Nat → Nat → Option Nat
  | [], _ => none
  | [_], _ => none
  | a :: b :: rest, c => if a = c then some b else nextAfter (b :: rest) c

/-- Modelled from the spec: `nextSibling`; the sibling order is the parent's
child list. -/
def vnode_getNextSibling (h : Heap) (p c : Nat) : Option Nat :=
  nextAfter (childrenOf h p) c

def vnode_isElementVNode (h : Heap) (i : Nat) : Bool :=
  match h.get? i with
  | some d => d.kind = NodeKind.element
  | none => false

def vnode_isVirtualVNode (h : Heap) (i : Nat) : Bool :=
  match h.get? i with
  | some d => d.kind = NodeKind.virtual
  | none => false

/-- `vnode_getType(v) === 3` checks for a text node (DOM `TEXT_NODE`). -/
def vnode_isTextVNode (h : Heap) (i : Nat) : Bool :=
  match h.get? i with
  | some d => d.kind = NodeKind.text
  | none => false

def vnode_getElementName (h : Heap) (i : Nat) : String :=
  match h.get? i with
  | some d => d.tag
  | none => ""

def vnode_getText (h : Heap) (i : Nat) : String :=
  match h.get? i with
  | some d => d.txt
  | none => ""

/-- `vnode_getProp(v, ELEMENT_KEY, null)`: the stored reconciliation key
(`null` when absent). -/
def vnode_getKey (h : Heap) (i : Nat) : Option String :=
  match h.get? i with
  | some d =>
    match mapGet d.attrs ELEMENT_KEY with
    | some (Val.str s) => some s
    | _ => none
  | none => none

/-- Modelled from the spec: tree mutators of the external vnode module.
`insertBefore(parent, node, beforeOrNull)` places `node` before the anchor,
or at the end when the anchor is `null`; placement for a missing anchor is not
specified, the model appends. -/
def insBefore (n bb : Nat) : List Nat → List Nat
  | [] => [n]
  | x :: xs => if x = bb then n :: x :: xs else x :: insBefore n bb xs

def vnode_insertBefore (h : Heap) (p n : Nat) (b : Option Nat) : Heap :=
  h.modify p (fun d =>
    { d with children :=
        match b with
        | none => d.children ++ [n]
        | some bb => insBefore n bb d.children })

/-- Modelled from the spec: `remove(parent, node, cleanupFlag)`; the cleanup
flag has no effect on tree shape. -/
def vnode_remove (h : Heap) (p n : Nat) (_cleanup : Bool) : Heap :=
  h.modify p (fun d => { d with children := d.children.erase n })

/-- Modelled from the spec: `truncate(parent, fromNode)` removes `fromNode`
and every later sibling (a suffix). -/
def vnode_truncate (h : Heap) (p n : Nat) : Heap :=
  h.modify p (fun d => { d with children := d.children.takeWhile (fun x => x ≠ n) })

def vnode_setText (h : Heap) (n : Nat) (s : String) : Heap :=
  h.modify n (fun d => { d with txt := s })

/-- Modelled from the spec: `setAttr` upserts into the sorted association
list, preserving the order invariant. -/
def vnode_setAttr (h : Heap) (n : Nat) (k : String) (v : Val) : Heap :=
  h.modify n (fun d => { d with attrs := mapSet d.attrs k v })

/-- Modelled from the spec: `setProp`. The stored render-function reference is
a resolver-mediated field; handler props are written into the node's sorted
association list directly rather than exposed as rendered attributes. -/
def vnode_setProp (h : Heap) (n : Nat) (k : String) (v : Val) : Heap :=
  if k = OnRenderProp then
    h.modify n (fun d =>
      { d with renderQrl := match v with | Val.qrl q => some q | _ => none })
  else
    h.modify n (fun d => { d with attrs := mapSet d.attrs k v })

def newElementData (tag : String) : VNodeData :=
  { kind := NodeKind.element, tag := tag, txt := "", attrs := [],
    renderQrl := none, props := none, children := [] }

def newTextData (s : String) : VNodeData :=
  { kind := NodeKind.text, tag := "", txt := s, attrs := [],
    renderQrl := none, props := none, children := [] }

def newVirtualData : VNodeData :=
  { kind := NodeKind.virtual, tag := "", txt := "", attrs := [],
    renderQrl := none, props := none, children := [] }

/-! ## Journal entries (`VNodeJournalEntry = VNodeJournalOpCode | VNode | null | string`)

Opcodes are the numeric values of the `const enum VNodeJournalOpCode`; in the
journal array they are plain JavaScript numbers, exactly like numeric
attribute values, so both are the `num` constructor here. -/

inductive JEntry where
  | num : Int → JEntry
  | vnode : Nat → JEntry
  | str : String → JEntry
  | nullv : JEntry
  | val : Val → JEntry
deriving DecidableEq, Repr

def opInsert : Int := 0
def opTruncate : Int := 1
def opRemove : Int := 2
def opMove : Int := 3
def opTextSet : Int := 4
def opElementInsert : Int := 5
def opAttributes : Int := 6
def opFragmentInsert : Int := 7

/-- How a value is pushed onto the journal array. -/
def entryOfVal : Val → JEntry
  | Val.str s => JEntry.str s
  | Val.num n => JEntry.num n
  | Val.null => JEntry.nullv
  | v => JEntry.val v

/-- How the applier reads a journal slot back as a value
(`journal[idx++] as string | null`). -/
def valOfEntry : JEntry → Val
  | JEntry.str s => Val.str s
  | JEntry.num n => Val.num n
  | JEntry.nullv => Val.null
  | JEntry.val v => v
  | JEntry.vnode i => Val.obj i

def optEntry : Option Nat → JEntry
  | some i => JEntry.vnode i
  | none => JEntry.nullv

/-! ## Descriptors (`JSXNode` children, the `jsxValue` tagged dispatch)

The dispatch in `diff` inspects `typeof jsxValue`:
string / number → text; object → array | signal | jsx node
(string tag | `Fragment` | `Slot` | qwik component | other) | other object
(including `null`); everything else (`undefined`, booleans, …) falls through
to `expectText('')`. -/

inductive JSXChild where
  | text : String → JSXChild
  | num : Int → JSXChild
  | arr : List JSXChild → JSXChild
  /-- jsx node with a string tag: tag, key (`null` encoded as `none`),
  attribute map in object-insertion order, children. -/
  | element : String → Option String → List (String × Val) → List JSXChild → JSXChild
  | fragment : List JSXChild → JSXChild
  /-- qwik component reference: render-function hash and props. -/
  | component : Nat → List (String × Val) → JSXChild
  | slot : JSXChild
  | signal : JSXChild
  /-- jsx node whose `type` is none of the recognized kinds. -/
  | otherJSX : JSXChild
  /-- an object-typed child that is not an array, signal or jsx node
  (for example `null`). -/
  | nullObject : JSXChild
  | undef : JSXChild
  | boolVal : Bool → JSXChild
deriving Repr

/-! ## Diff-pass state -/

/-- One traversal frame: current parent, sibling cursor (`null` past the last
child), the newly-inserted-node pointer, and the materialized key→node side
table (`vSiblings` entries at and after `vSiblingsIdx`, as (key, node) pairs). -/
structure Frame where
  parent : Nat
  current : Option Nat
  newNode : Option Nat
  siblings : Option (List (Option String × Nat))
deriving DecidableEq, Repr

/-- Mutable state of a diff pass: the node store, the append-only journal
(`container.$journal$`), and the pending-expansion queue. A queued pair is the
(host, render-function hash, props) triple that determines the external
`executeComponent2` expansion pushed with the host. -/
structure DiffState where
  heap : Heap
  journal : List JEntry
  queue : List (Nat × Nat × List (String × Val))
deriving DecidableEq, Repr

/-- `advance()` (cursor part; descriptor iteration is the recursion). -/
def advanceF (h : Heap) (fr : Frame) : Frame :=
  if fr.newNode.isSome then { fr with newNode := none }
  else
    match fr.siblings with
    | some l =>
      let l' := l.tail
      { fr with siblings := some l', current := l'.head?.map (fun e => e.2) }
    | none =>
      { fr with current := fr.current.bind (fun c => vnode_getNextSibling h fr.parent c) }

/-- `expectNoMore()`: truncate any remaining existing children at the cursor. -/
def expectNoMoreE (fr : Frame) (st : DiffState) : DiffState :=
  match fr.current with
  | none => st
  | some c =>
    { st with journal := st.journal ++
        [JEntry.num opTruncate, JEntry.vnode fr.parent, JEntry.vnode c] }

/-- Walk of `expectNoMoreTextNodes()`: leading run of text nodes from the
cursor and the node the cursor lands on. -/
def textPurgeRun (h : Heap) : List Nat → List Nat × Option Nat
  | [] => ([], none)
  | c :: rest =>
    if vnode_isTextVNode h c then
      let r := textPurgeRun h rest
      (c :: r.1, r.2)
    else ([], some c)

/-- `expectNoMoreTextNodes()`: remove every consecutive text node at the
cursor (one `Remove` entry each), leaving the cursor on the first non-text
sibling. -/
def expectNoMoreTextNodesE (fr : Frame) (st : DiffState) : Frame × DiffState :=
  match fr.current with
  | none => (fr, st)
  | some c =>
    let suffix :=
      match (childrenOf st.heap fr.parent).dropWhile (fun x => x ≠ c) with
      | [] => [c]
      | s => s
    let r := textPurgeRun st.heap suffix
    ({ fr with current := r.2 },
     { st with journal := st.journal ++
         r.1.flatMap (fun t => [JEntry.num opRemove, JEntry.vnode fr.parent, JEntry.vnode t]) })

/-- `expectText(text)`. -/
def expectTextE (text : String) (fr : Frame) (st : DiffState) : Frame × DiffState :=
  match fr.current with
  | some c =>
    if vnode_isTextVNode st.heap c then
      if text ≠ vnode_getText st.heap c then
        (fr, { st with journal := st.journal ++
            [JEntry.num opTextSet, JEntry.vnode c, JEntry.str text] })
      else (fr, st)
    else
      let a := st.heap.alloc (newTextData text)
      (fr, { st with heap := a.2, journal := st.journal ++
          [JEntry.num opInsert, JEntry.vnode fr.parent, JEntry.vnode a.1, optEntry fr.current] })
  | none =>
    let a := st.heap.alloc (newTextData text)
    (fr, { st with heap := a.2, journal := st.journal ++
        [JEntry.num opInsert, JEntry.vnode fr.parent, JEntry.vnode a.1, optEntry fr.current] })

/-- Loose JavaScript `==` between the searched key (`undefined` or a string)
and a stored key (`null` or a string): `null == undefined` holds, strings
compare by value, a string never equals `null`/`undefined`. -/
def looseEq : Option String → Option String → Bool
  | none, none => true
  | some a, some b => a = b
  | _, _ => false

/-- Materialization walk of `retrieveChildWithKey`: first sibling whose key
loosely matches is taken; every other sibling is pushed onto the side table. -/
def collectKey (h : Heap) (searchKey : Option String) : List Nat → Option Nat × List (Option String × Nat)
  | [] => (none, [])
  | c :: rest =>
    let vKey := vnode_getKey h c
    if looseEq vKey searchKey then
      (some c, rest.map (fun n => (vnode_getKey h n, n)))
    else
      let r := collectKey h searchKey rest
      (r.1, (vKey, c) :: r.2)

/-- Side-table lookup of `retrieveChildWithKey`: find and splice out the first
matching entry. -/
def spliceKey (searchKey : Option String) : List (Option String × Nat) → Option Nat × List (Option String × Nat)
  | [] => (none, [])
  | (k, n) :: rest =>
    if looseEq k searchKey then (some n, rest)
    else
      let r := spliceKey searchKey rest
      (r.1, (k, n) :: r.2)

/-- `retrieveChildWithKey(key)`: on first use materializes the remaining
siblings into the side table; afterwards consults and splices the table. -/
def retrieveChildWithKey (searchKey : Option String) (fr : Frame) (h : Heap) :
    Option Nat × Frame :=
  match fr.siblings with
  | none =>
    let suffix :=
      match fr.current with
      | none => []
      | some c => (childrenOf h fr.parent).dropWhile (fun x => x ≠ c)
    let r := collectKey h searchKey suffix
    (r.1, { fr with siblings := some r.2 })
  | some l =>
    let r := spliceKey searchKey l
    (r.1, { fr with siblings := some r.2 })

/-- The jsx attribute list `jsx.attrs` built from the props map by repeated
`mapArray_set` plus the `ELEMENT_KEY` entry when the descriptor carries a key. -/
def buildAttrs (attrs : List (String × Val)) (key : Option String) : List (String × Val) :=
  let base := attrs.foldl (fun acc kv => mapSet acc kv.1 kv.2) []
  match key with
  | none => base
  | some k => mapSet base ELEMENT_KEY (Val.str k)

/-- The two-pointer merge loop of `setBulkProps`, over (key, value) pairs
(the flat `SsrAttrs` arrays hold keys at even and values at odd indices).
Returns the pairs passed to `record` in order, and the
`patchEventDispatch` flag. -/
def bulkRecords : List (String × Val) → List (String × Val) → List (String × Val) × Bool
  | [], [] => ([], false)
  | [], (dk, _) :: dr =>
    let r := bulkRecords [] dr
    if jsStartsWith dk "on:" then (r.1, true) else ((dk, Val.null) :: r.1, r.2)
  | (sk, sv) :: sr, [] =>
    let r := bulkRecords sr []
    ((sk, sv) :: r.1, r.2 || (jsStartsWith sk "on" && jsEndsWith sk "$"))
  | (sk, sv) :: sr, (dk, dv) :: dr =>
    if sk = dk then
      let r := bulkRecords sr dr
      (if sv ≠ dv then (sk, sv) :: r.1 else r.1, r.2)
    else if sk < dk then
      let r := bulkRecords sr ((dk, dv) :: dr)
      ((sk, sv) :: r.1, r.2)
    else
      let r := bulkRecords ((sk, sv) :: sr) dr
      ((dk, Val.null) :: r.1, r.2)
termination_by src dst => src.length + dst.length

/-- `setBulkProps(vnode, srcAttrs)`: diff the descriptor's sorted attribute
list against the node's stored sorted list; `record` lazily opens one
`Attributes` journal block.  (The `qDispatchEvent` patch acts on the hosting
environment's concrete element, outside the tree model.) -/
def setBulkProps (v : Nat) (src : List (String × Val)) (st : DiffState) : DiffState :=
  let dst := match st.heap.get? v with | some d => d.attrs | none => []
  let recs := (bulkRecords src dst).1
  if recs = [] then st
  else
    { st with journal := st.journal ++
        [JEntry.num opAttributes, JEntry.vnode v] ++
        recs.flatMap (fun kv => [JEntry.str kv.1, entryOfVal kv.2]) }

/-- `expectElement(jsx, tag)` up to (and including) attribute reconciliation.
`jsxKey` is only assigned when the tag names already matched, so on a tag
mismatch the keyed search runs with JavaScript `undefined`. -/
def expectElementE (tag : String) (key : Option String) (attrs : List (String × Val))
    (fr : Frame) (st : DiffState) : Frame × DiffState :=
  let h := st.heap
  let isSameTagName :=
    match fr.current with
    | some c => vnode_isElementVNode h c && tag = vnode_getElementName h c
    | none => false
  let inPlace :=
    isSameTagName &&
      (match fr.current with
       | some c => looseEq key (vnode_getKey h c)
       | none => false)
  let r :=
    if inPlace then (fr, st)
    else if isSameTagName && key = none then
      -- `jsxKey` was assigned `null`: plain insertion.
      let a := h.alloc (newElementData tag)
      ({ fr with newNode := some a.1 },
       { st with heap := a.2, journal := st.journal ++
           [JEntry.num opInsert, JEntry.vnode fr.parent, JEntry.vnode a.1, optEntry fr.current] })
    else
      let searchKey := if isSameTagName then key else none
      let rc := retrieveChildWithKey searchKey fr h
      match rc.1 with
      | none =>
        let a := h.alloc (newElementData tag)
        ({ rc.2 with newNode := some a.1 },
         { st with heap := a.2, journal := st.journal ++
             [JEntry.num opInsert, JEntry.vnode fr.parent, JEntry.vnode a.1, optEntry fr.current] })
      | some f =>
        ({ rc.2 with newNode := some f },
         { st with journal := st.journal ++
             [JEntry.num opMove, JEntry.vnode fr.parent, JEntry.vnode f, optEntry fr.current] })
  let target := match r.1.newNode with | some n => n | none => match r.1.current with | some c => c | none => 0
  (r.1, setBulkProps target (buildAttrs attrs key) r.2)

/-- `expectVirtual()`.  In the insertion call the new node is assigned before
`getInsertBefore()` is evaluated, so the anchor is always the cursor. -/
def expectVirtualE (fr : Frame) (st : DiffState) : Frame × DiffState :=
  match fr.current with
  | some c =>
    if vnode_isVirtualVNode st.heap c then (fr, st)
    else
      let a := st.heap.alloc newVirtualData
      ({ fr with newNode := some a.1 },
       { st with heap := a.2, journal := st.journal ++
           [JEntry.num opInsert, JEntry.vnode fr.parent, JEntry.vnode a.1, optEntry fr.current] })
  | none =>
    let a := st.heap.alloc newVirtualData
    ({ fr with newNode := some a.1 },
     { st with heap := a.2, journal := st.journal ++
         [JEntry.num opInsert, JEntry.vnode fr.parent, JEntry.vnode a.1, optEntry fr.current] })

def insertSorted (s : String) : List String → List String
  | [] => [s]
  | x :: xs => if s ≤ x then s :: x :: xs else x :: insertSorted s xs

def sortKeys (l : List String) : List String := l.foldr insertSorted []

def lookupProp (l : List (String × Val)) (k : String) : Option Val :=
  (l.find? (fun p => p.1 == k)).map (fun p => p.2)

/-- `shallowEqual(src, dst)`: sorted key lists must agree pointwise and each
key's values must be `===`-equal. -/
def shallowEqual (src dst : List (String × Val)) : Bool :=
  let sks := sortKeys (src.map (fun p => p.1))
  let dks := sortKeys (dst.map (fun p => p.1))
  sks.length = dks.length &&
    (List.zip sks dks).all (fun ab => ab.1 = ab.2 && lookupProp src ab.1 == lookupProp dst ab.2)

/-- `expectComponent(component)`: the host is `vCurrent || vNewNode`; a
differing stored render-function hash is written back immediately
(`vnode_setProp`) and forces a render, short-circuiting the props comparison;
otherwise the new props are shallow-compared with the stored snapshot (a
missing snapshot would make `shallowEqual` throw on `Object.keys(null)`).
A render pushes the (expansion, host) pair onto the pending queue. -/
def expectComponentE (hash : Nat) (props : List (String × Val)) (fr : Frame)
    (st : DiffState) : Except String DiffState :=
  let host := match fr.current with | some c => c | none => match fr.newNode with | some n => n | none => 0
  let storedQrl := match st.heap.get? host with | some d => d.renderQrl | none => none
  if storedQrl ≠ some hash then
    let st1 := { st with heap := vnode_setProp st.heap host OnRenderProp (Val.qrl hash) }
    Except.ok { st1 with queue := st1.queue ++ [(host, hash, props)] }
  else
    match (match st.heap.get? host with | some d => d.props | none => none) with
    | none => Except.error "TypeError: Cannot convert undefined or null to object"
    | some stored =>
      if shallowEqual props stored then Except.ok st
      else Except.ok { st with queue := st.queue ++ [(host, hash, props)] }

/-! ## The traversal

The source drives one `while` loop over an explicit stack; pushing a frame
(`descend`) and popping it (`ascend`) implement recursion over the descriptor
tree, so the embedding is the corresponding recursive function.  `descend`
with `descendVNode === false` (a nested array) keeps the current frame, so an
array's elements are spliced into the current child list; each processed
descriptor is followed by exactly one `advance()` of the cursor (the deferred
advance of the last element of an array is the single advance the enclosing
level performs).  An *empty* array runs the loop body with no descriptors,
which executes `expectNoMore()` (a truncation!) mid-list and then advances. -/

mutual
@[simp] def JSXChild.size : JSXChild → Nat
  | JSXChild.text _ => 1
  | JSXChild.num _ => 1
  | JSXChild.arr xs => 1 + JSXChild.sizeList xs
  | JSXChild.element _ _ _ children => 1 + JSXChild.sizeList children
  | JSXChild.fragment children => 1 + JSXChild.sizeList children
  | JSXChild.component _ _ => 1
  | JSXChild.slot => 1
  | JSXChild.signal => 1
  | JSXChild.otherJSX => 1
  | JSXChild.nullObject => 1
  | JSXChild.undef => 1
  | JSXChild.boolVal _ => 1

@[simp] def JSXChild.sizeList : List JSXChild → Nat
  | [] => 0
  | c :: rest => 1 + JSXChild.size c + JSXChild.sizeList rest
end

inductive DiffTask where
  | one : JSXChild → DiffTask
  | step : JSXChild → DiffTask
  | list : List JSXChild → DiffTask

def DiffTask.weight : DiffTask → Nat
  | DiffTask.one c => 3 * c.size + 1
  | DiffTask.step c => 3 * c.size + 2
  | DiffTask.list cs => 3 * JSXChild.sizeList cs

def diffGo : DiffTask → Frame → DiffState → Except String (Frame × DiffState)
  | DiffTask.list [], fr, st => Except.ok (fr, st)
  | DiffTask.list (c :: rest), fr, st => do
    let r ← diffGo (DiffTask.step c) fr st
    diffGo (DiffTask.list rest) r.1 r.2
  | DiffTask.step c, fr, st =>
    match c with
    | JSXChild.arr [] =>
      -- empty array frame: the dispatch loop body runs `expectNoMore()` and
      -- the `ascend`/`advance` pair immediately.
      let st1 := expectNoMoreE fr st
      Except.ok (advanceF st1.heap fr, st1)
    | JSXChild.arr (x :: xs) =>
      -- non-empty array: elements are diffed in the current frame; the last
      -- element's `advance` is the one the enclosing level would perform.
      diffGo (DiffTask.list (x :: xs)) fr st
    | c' => do
      let r ← diffGo (DiffTask.one c') fr st
      Except.ok (advanceF r.2.heap r.1, r.2)
  | DiffTask.one c, fr, st =>
    match c with
    | JSXChild.text s => Except.ok (expectTextE s fr st)
    | JSXChild.num n => Except.ok (expectTextE (toString n) fr st)
    | JSXChild.undef => Except.ok (expectTextE "" fr st)
    | JSXChild.boolVal _ => Except.ok (expectTextE "" fr st)
    | JSXChild.arr xs => diffGo (DiffTask.list xs) fr st
    | JSXChild.slot => Except.error "IMPLEMENT"
    | JSXChild.signal => Except.error "implement"
    | JSXChild.otherJSX => Except.error "Unsupported type"
    | JSXChild.nullObject => Except.error "Unsupported value"
    | JSXChild.element tag key attrs children => do
      let p1 := expectNoMoreTextNodesE fr st
      let p2 := expectElementE tag key attrs p1.1 p1.2
      match (match p2.1.newNode with | some n => some n | none => p2.1.current) with
      | none => Except.error "Expecting vCurrent to be defined."
      | some target => do
        let inner : Frame :=
          { parent := target, current := vnode_getFirstChild p2.2.heap target,
            newNode := none, siblings := none }
        let r ← diffGo (DiffTask.list children) inner p2.2
        Except.ok (p2.1, expectNoMoreE r.1 r.2)
    | JSXChild.fragment children => do
      let p1 := expectNoMoreTextNodesE fr st
      let p2 := expectVirtualE p1.1 p1.2
      match (match p2.1.newNode with | some n => some n | none => p2.1.current) with
      | none => Except.error "Expecting vCurrent to be defined."
      | some target => do
        let inner : Frame :=
          { parent := target, current := vnode_getFirstChild p2.2.heap target,
            newNode := none, siblings := none }
        let r ← diffGo (DiffTask.list children) inner p2.2
        Except.ok (p2.1, expectNoMoreE r.1 r.2)
    | JSXChild.component hash props => do
      let p1 := expectNoMoreTextNodesE fr st
      let p2 := expectVirtualE p1.1 p1.2
      let st3 ← expectComponentE hash props p2.1 p2.2
      Except.ok (p2.1, st3)
termination_by t _ _ => t.weight
decreasing_by
  all_goals simp only [DiffTask.weight, JSXChild.size, JSXChild.sizeList]
  all_goals omega

/-- The child list the top-level `stackPush(jsxNode, true)` iterates over:
an array root is iterated element-wise, `undefined` is the
`children === undefined` branch (no children, `jsxCount = 0`), and anything
else is a singleton. -/
def rootChildren : JSXChild → List JSXChild
  | JSXChild.arr xs => xs
  | JSXChild.undef => []
  | c => [c]

/-- `vnode_diff(container, jsxNode, vStartNode)`: one diff pass (the drain of
the pending-expansion queue re-enters `diff` through the external
`executeComponent2`; the requests are returned in `DiffState.queue`).
The container's journal starts empty here; the pass appends to it. -/
def vnode_diff (jsx : JSXChild) (vStartNode : Nat) (h : Heap) : Except String DiffState := do
  let fr0 : Frame :=
    { parent := vStartNode, current := vnode_getFirstChild h vStartNode,
      newNode := none, siblings := none }
  let r ← diffGo (DiffTask.list (rootChildren jsx)) fr0
    { heap := h, journal := [], queue := [] }
  Except.ok (expectNoMoreE r.1 r.2)

/-! ## The journal applier (`vnode_applyJournal`) -/

/-- The inner `while (typeof (key = journal[idx]) === 'string')` loop of the
`Attributes` opcode: consume (key, value) slots while the key slot holds a
string, routing handler-shaped keys (starting with `on`, ending with `$`) to
the property setter and everything else to the attribute setter.  Reading the
value past the end of the array yields `undefined`; the model uses `null`
there (never reached by journals the diff engine produces). -/
def applyAttrsRun (v : Nat) : List JEntry → Heap → Heap × List JEntry
  | JEntry.str k :: e :: rest, h =>
    let value := valOfEntry e
    let h' :=
      if jsStartsWith k "on" && jsEndsWith k "$" then vnode_setProp h v k value
      else vnode_setAttr h v k value
    applyAttrsRun v rest h'
  | [JEntry.str k], h =>
    let h' :=
      if jsStartsWith k "on" && jsEndsWith k "$" then vnode_setProp h v k Val.null
      else vnode_setAttr h v k Val.null
    (h', [])
  | js, h => (h, js)

theorem applyAttrsRun_length (v : Nat) (js : List JEntry) (h : Heap) :
    (applyAttrsRun v js h).2.length ≤ js.length := by
  induction js, h using applyAttrsRun.induct v with
  | case1 k e rest h value h' ih =>
    simp only [applyAttrsRun]
    exact Nat.le_trans ih (by simp; omega)
  | case2 k h => simp [applyAttrsRun]
  | case3 js h hh => simp [applyAttrsRun]

/-- The applier's single `while` pass over the journal, dispatching on each
opcode (`assertTrue(typeof opCode === 'number')` guards the opcode slot).
Shape mismatches of operand slots correspond to the unchecked `as` casts
handing a wrong value to an external primitive; the model makes them errors
(journals produced by the diff engine never contain them).  A `Move` entry is
decomposed into `vnode_remove(parent, node, false)` followed by
`vnode_insertBefore(parent, node, before)`. -/
def applyGo : List JEntry → Heap → Except String Heap
  | [], h => Except.ok h
  | e :: rest, h =>
    match e with
    | JEntry.num n =>
      if n = opTextSet then
        match rest with
        | JEntry.vnode t :: JEntry.str s :: r => applyGo r (vnode_setText h t s)
        | _ => Except.error "journal operand shape"
      else if n = opInsert then
        match rest with
        | JEntry.vnode p :: JEntry.vnode nn :: JEntry.vnode b :: r =>
          applyGo r (vnode_insertBefore h p nn (some b))
        | JEntry.vnode p :: JEntry.vnode nn :: JEntry.nullv :: r =>
          applyGo r (vnode_insertBefore h p nn none)
        | _ => Except.error "journal operand shape"
      else if n = opTruncate then
        match rest with
        | JEntry.vnode p :: JEntry.vnode nn :: r => applyGo r (vnode_truncate h p nn)
        | _ => Except.error "journal operand shape"
      else if n = opRemove then
        match rest with
        | JEntry.vnode p :: JEntry.vnode nn :: r => applyGo r (vnode_remove h p nn true)
        | _ => Except.error "journal operand shape"
      else if n = opMove then
        match rest with
        | JEntry.vnode p :: JEntry.vnode nn :: JEntry.vnode b :: r =>
          applyGo r (vnode_insertBefore (vnode_remove h p nn false) p nn (some b))
        | JEntry.vnode p :: JEntry.vnode nn :: JEntry.nullv :: r =>
          applyGo r (vnode_insertBefore (vnode_remove h p nn false) p nn none)
        | _ => Except.error "journal operand shape"
      else if n = opAttributes then
        match rest with
        | JEntry.vnode v :: r =>
          let ar := applyAttrsRun v r h
          applyGo ar.2 ar.1
        | _ => Except.error "journal operand shape"
      else Except.error "Unsupported opCode"
    | _ => Except.error "Expecting opCode to be a number."
termination_by js _ => js.length
decreasing_by
  all_goals simp
  all_goals try omega
  · exact Nat.lt_succ_of_le (Nat.le_succ_of_le (applyAttrsRun_length _ _ _))

/-- `vnode_applyJournal(journal)`: one pass in append order, then
`journal.length = 0`.  The returned list is the journal array after the call
(empty on success; an error propagates before the clearing line runs, leaving
the array as it was). -/
def vnode_applyJournal (j : List JEntry) (h : Heap) : Except String (Heap × List JEntry) :=
  (applyGo j h).map (fun h' => (h', []))

/-! ## Claim theorems -/

/-! ### C5 — single truncation entry for the remaining suffix -/

def c5root : VNodeData :=
  { kind := NodeKind.element, tag := "root", txt := "", attrs := [],
    renderQrl := none, props := none, children := [1, 2, 3] }

def c5heap : Heap :=
  { nodes := [(0, c5root), (1, newTextData "a"), (2, newTextData "b"), (3, newTextData "c")],
    nextId := 4 }

def c5emptyHeap : Heap :=
  { nodes := [(0, { c5root with children := [] })], nextId := 1 }

/-- Claim C5: after a frame's descriptor list is exhausted, the remaining
existing children at/after the cursor are removed by exactly one `Truncate`
journal entry (none when the cursor is already past the last child); in
particular an empty child list against a 3-child parent yields a single
truncate entry whose application removes all three children, not three
separate removals. -/
theorem C5_truncate_single_entry :
    (∀ (h : Heap) (p : Nat),
      vnode_diff (JSXChild.arr []) p h =
        Except.ok { heap := h,
                    journal := match vnode_getFirstChild h p with
                      | none => []
                      | some c => [JEntry.num opTruncate, JEntry.vnode p, JEntry.vnode c],
                    queue := [] })
    ∧ vnode_diff (JSXChild.arr []) 0 c5heap =
        Except.ok { heap := c5heap,
                    journal := [JEntry.num opTruncate, JEntry.vnode 0, JEntry.vnode 1],
                    queue := [] }
    ∧ vnode_applyJournal [JEntry.num opTruncate, JEntry.vnode 0, JEntry.vnode 1] c5heap =
        Except.ok ({ c5heap with nodes := [(0, { c5root with children := [] }),
                      (1, newTextData "a"), (2, newTextData "b"), (3, newTextData "c")] }, [])
    ∧ vnode_diff (JSXChild.arr []) 0 c5emptyHeap =
        Except.ok { heap := c5emptyHeap, journal := [], queue := [] } := by
  refine ⟨?_, ?_, ?_, ?_⟩
  · intro h p
    cases hc : vnode_getFirstChild h p with
    | none =>
      simp [vnode_diff, rootChildren, diffGo, expectNoMoreE, hc, Bind.bind, Except.bind]
    | some c =>
      simp [vnode_diff, rootChildren, diffGo, expectNoMoreE, hc, Bind.bind, Except.bind]
  · simp [vnode_diff, rootChildren, diffGo, expectNoMoreE, vnode_getFirstChild, childrenOf,
          Heap.get?, c5heap, c5root, Bind.bind, Except.bind]
  · simp [vnode_applyJournal, applyGo, vnode_truncate, Heap.modify, Heap.get?, Heap.set,
          setAssoc, c5heap, c5root, opTruncate, opTextSet, opInsert, opRemove, opMove,
          opAttributes, newTextData, Except.map]
  · simp [vnode_diff, rootChildren, diffGo, expectNoMoreE, vnode_getFirstChild, childrenOf,
          Heap.get?, c5emptyHeap, c5root, Bind.bind, Except.bind]

/-! ### C3 — keyed reorder `[A,B,C]` against `[C,A,B]`: one move -/

def keyedDiv (k : String) : VNodeData :=
  { kind := NodeKind.element, tag := "div", txt := "",
    attrs := [(ELEMENT_KEY, Val.str k)], renderQrl := none, props := none, children := [] }

def c3heap : Heap :=
  { nodes := [(0, { c5root with children := [1, 2, 3] }),
              (1, keyedDiv "a"), (2, keyedDiv "b"), (3, keyedDiv "c")],
    nextId := 4 }

def c3jsx : JSXChild :=
  JSXChild.arr
    [JSXChild.element "div" (some "c") [] [],
     JSXChild.element "div" (some "a") [] [],
     JSXChild.element "div" (some "b") [] []]

def c3heapAfter : Heap :=
  { nodes := [(0, { c5root with children := [3, 1, 2] }),
              (1, keyedDiv "a"), (2, keyedDiv "b"), (3, keyedDiv "c")],
    nextId := 4 }

/-- Claim C3: diffing keyed children `[A,B,C]` (ids 1,2,3) against the new
keyed order `[C,A,B]` emits exactly one `Move` journal entry (for C), zero
`Insert` and zero `Remove` entries, and applying the journal reorders the
parent's children to `[C,A,B]` while nodes 1, 2, 3 keep their identities and
data unchanged. -/
theorem C3_keyed_reorder_single_move :
    vnode_diff c3jsx 0 c3heap =
      Except.ok { heap := c3heap,
                  journal := [JEntry.num opMove, JEntry.vnode 0, JEntry.vnode 3, JEntry.vnode 1],
                  queue := [] }
    ∧ vnode_applyJournal [JEntry.num opMove, JEntry.vnode 0, JEntry.vnode 3, JEntry.vnode 1] c3heap =
        Except.ok (c3heapAfter, [])
    ∧ childrenOf c3heapAfter 0 = [3, 1, 2]
    ∧ c3heapAfter.get? 1 = c3heap.get? 1
    ∧ c3heapAfter.get? 2 = c3heap.get? 2
    ∧ c3heapAfter.get? 3 = c3heap.get? 3 := by
  refine ⟨?_, ?_, ?_, ?_, ?_, ?_⟩
  · simp [vnode_diff, rootChildren, diffGo, c3jsx, c3heap, c5root, keyedDiv,
          expectNoMoreE, expectNoMoreTextNodesE, textPurgeRun, expectElementE, expectTextE,
          setBulkProps, bulkRecords, buildAttrs, mapSet, retrieveChildWithKey, collectKey,
          spliceKey, looseEq, vnode_getKey, mapGet, advanceF, vnode_getFirstChild,
          vnode_getNextSibling, nextAfter, vnode_isTextVNode, vnode_isElementVNode,
          vnode_getElementName, childrenOf, Heap.get?, Heap.alloc, ELEMENT_KEY,
          entryOfVal, optEntry, Bind.bind, Except.bind]
  · simp [vnode_applyJournal, applyGo, vnode_remove, vnode_insertBefore, insBefore,
          Heap.modify, Heap.get?, Heap.set, setAssoc, c3heap, c3heapAfter, c5root, keyedDiv,
          opTruncate, opTextSet, opInsert, opRemove, opMove, opAttributes, Except.map,
          List.erase]
  · simp [childrenOf, Heap.get?, c3heapAfter, c5root]
  · simp [Heap.get?, c3heapAfter, c3heap]
  · simp [Heap.get?, c3heapAfter, c3heap]
  · simp [Heap.get?, c3heapAfter, c3heap]

/-! ### C4 — component re-render gating -/

def c4host : VNodeData :=
  { kind := NodeKind.virtual, tag := "", txt := "", attrs := [],
    renderQrl := some 7, props := some [("x", Val.num 1)], children := [] }

def c4heap : Heap :=
  { nodes := [(0, { c5root with children := [1] }), (1, c4host)], nextId := 2 }

/-- Claim C4: a component descriptor against a host whose stored
render-function identity (hash 7) equals the requested one and whose stored
props are shallow-equal to the new props enqueues zero expansions; changing
one prop value enqueues exactly one (descriptor, host) pair. -/
theorem C4_component_gating :
    vnode_diff (JSXChild.component 7 [("x", Val.num 1)]) 0 c4heap =
      Except.ok { heap := c4heap, journal := [], queue := [] }
    ∧ vnode_diff (JSXChild.component 7 [("x", Val.num 2)]) 0 c4heap =
        Except.ok { heap := c4heap, journal := [],
                    queue := [(1, 7, [("x", Val.num 2)])] } := by
  constructor
  · simp [vnode_diff, rootChildren, diffGo, c4heap, c4host, c5root,
          expectNoMoreE, expectNoMoreTextNodesE, textPurgeRun, expectVirtualE,
          expectComponentE, shallowEqual, sortKeys, insertSorted, lookupProp,
          advanceF, vnode_getFirstChild, vnode_getNextSibling, nextAfter,
          vnode_isTextVNode, vnode_isVirtualVNode, childrenOf, Heap.get?,
          Bind.bind, Except.bind]
  · simp [vnode_diff, rootChildren, diffGo, c4heap, c4host, c5root,
          expectNoMoreE, expectNoMoreTextNodesE, textPurgeRun, expectVirtualE,
          expectComponentE, shallowEqual, sortKeys, insertSorted, lookupProp,
          advanceF, vnode_getFirstChild, vnode_getNextSibling, nextAfter,
          vnode_isTextVNode, vnode_isVirtualVNode, childrenOf, Heap.get?,
          Bind.bind, Except.bind]

/-! ### C10 — non-string/number/object children are empty text -/

def c10heap : Heap :=
  { nodes := [(0, { c5root with children := [1] }), (1, newTextData "x")], nextId := 2 }

def c10empty : Heap :=
  { nodes := [(0, { c5root with children := [] })], nextId := 1 }

/-- Counterexample to claim C10 as stated: its "or a missing child" clause
fails.  `stackPush` treats `children === undefined` as *zero* children
(`jsxCount = 0`), so diffing the root descriptor `undefined` against a parent
whose child is the text node `"x"` runs no dispatch iterations at all: the
engine truncates the existing child rather than reusing it as an empty text
node — the journal is `[Truncate]`, not the `[TextSet(node 1, "")]` the claim
predicts. -/
theorem C10_missing_child_list_not_empty_text :
    vnode_diff JSXChild.undef 0 c10heap =
      Except.ok { heap := c10heap,
                  journal := [JEntry.num opTruncate, JEntry.vnode 0, JEntry.vnode 1],
                  queue := [] }
    ∧ [JEntry.num opTruncate, JEntry.vnode 0, JEntry.vnode 1] ≠
        [JEntry.num opTextSet, JEntry.vnode 1, JEntry.str ""] := by
  refine ⟨?_, by decide⟩
  simp [vnode_diff, rootChildren, diffGo, c10heap, c5root, expectNoMoreE,
        vnode_getFirstChild, childrenOf, Heap.get?, Bind.bind, Except.bind]

/-- Claim C10 amended: an `undefined` or boolean value appearing *as a child
inside a child list* is dispatched exactly like the empty text string — an
existing text node at the cursor is reused (its text set to `""` when it
differs), otherwise a new empty text node is inserted, and no error is ever
raised; a missing child *list* (`undefined` where a children list is
expected, here the diff root) instead means zero descriptors, identical to an
empty array — no empty text node is produced; only object-typed values of
unknown shape (such as `null`) are fatal. -/
theorem C10_undef_bool_children_empty_text_amended :
    (∀ (fr : Frame) (st : DiffState),
      diffGo (DiffTask.step JSXChild.undef) fr st =
        diffGo (DiffTask.step (JSXChild.text "")) fr st)
    ∧ (∀ (b : Bool) (fr : Frame) (st : DiffState),
      diffGo (DiffTask.step (JSXChild.boolVal b)) fr st =
        diffGo (DiffTask.step (JSXChild.text "")) fr st)
    ∧ (∀ (fr : Frame) (st : DiffState),
      diffGo (DiffTask.step JSXChild.undef) fr st =
        Except.ok (advanceF (expectTextE "" fr st).2.heap (expectTextE "" fr st).1,
                   (expectTextE "" fr st).2))
    ∧ vnode_diff (JSXChild.arr [JSXChild.undef]) 0 c10heap =
        Except.ok { heap := c10heap,
                    journal := [JEntry.num opTextSet, JEntry.vnode 1, JEntry.str ""],
                    queue := [] }
    ∧ vnode_diff (JSXChild.boolVal true) 0 c10empty =
        Except.ok { heap := { nodes := [(0, { c5root with children := [] }),
                                        (1, newTextData "")], nextId := 2 },
                    journal := [JEntry.num opInsert, JEntry.vnode 0, JEntry.vnode 1, JEntry.nullv],
                    queue := [] }
    ∧ (∀ (h : Heap) (p : Nat),
      vnode_diff JSXChild.undef p h = vnode_diff (JSXChild.arr []) p h)
    ∧ (∀ (fr : Frame) (st : DiffState),
      diffGo (DiffTask.step JSXChild.nullObject) fr st = Except.error "Unsupported value") := by
  refine ⟨?_, ?_, ?_, ?_, ?_, ?_, ?_⟩
  · intro fr st; simp [diffGo, Bind.bind, Except.bind]
  · intro b fr st; simp [diffGo, Bind.bind, Except.bind]
  · intro fr st; simp [diffGo, Bind.bind, Except.bind]
  · simp [vnode_diff, rootChildren, diffGo, c10heap, c5root, expectNoMoreE, expectTextE,
          advanceF, vnode_getFirstChild, vnode_getNextSibling, nextAfter, vnode_isTextVNode,
          vnode_getText, childrenOf, Heap.get?, newTextData, optEntry,
          Bind.bind, Except.bind]
  · simp [vnode_diff, rootChildren, diffGo, c10empty, c5root, expectNoMoreE, expectTextE,
          advanceF, vnode_getFirstChild, vnode_getNextSibling, nextAfter, vnode_isTextVNode,
          vnode_getText, childrenOf, Heap.get?, Heap.alloc, newTextData, optEntry,
          Bind.bind, Except.bind]
  · intro h p; rfl
  · intro fr st; simp [diffGo, Bind.bind, Except.bind]

/-! ### C9 — fatal error policy -/

/-- Claim C9: a slot descriptor, a signal, an unsupported jsx node type and an
unsupported object value each raise an immediate fatal error that aborts the
diff (a slot anywhere in a child list kills the whole list, no recovery), and
an unrecognized opcode makes the journal applier fail (so it never reaches the
line that clears the journal: no cleared-journal result is produced). -/
theorem C9_fatal_errors :
    (∀ (fr : Frame) (st : DiffState),
      diffGo (DiffTask.step JSXChild.slot) fr st = Except.error "IMPLEMENT")
    ∧ (∀ (fr : Frame) (st : DiffState),
      diffGo (DiffTask.step JSXChild.signal) fr st = Except.error "implement")
    ∧ (∀ (fr : Frame) (st : DiffState),
      diffGo (DiffTask.step JSXChild.otherJSX) fr st = Except.error "Unsupported type")
    ∧ (∀ (fr : Frame) (st : DiffState),
      diffGo (DiffTask.step JSXChild.nullObject) fr st = Except.error "Unsupported value")
    ∧ (∀ (rest : List JSXChild) (fr : Frame) (st : DiffState),
      diffGo (DiffTask.list (JSXChild.slot :: rest)) fr st = Except.error "IMPLEMENT")
    ∧ (∀ (n : Int), n ≠ opTextSet → n ≠ opInsert → n ≠ opTruncate → n ≠ opRemove →
        n ≠ opMove → n ≠ opAttributes →
        ∀ (rest : List JEntry) (h : Heap),
          vnode_applyJournal (JEntry.num n :: rest) h = Except.error "Unsupported opCode") := by
  refine ⟨?_, ?_, ?_, ?_, ?_, ?_⟩
  · intro fr st; simp [diffGo, Bind.bind, Except.bind]
  · intro fr st; simp [diffGo, Bind.bind, Except.bind]
  · intro fr st; simp [diffGo, Bind.bind, Except.bind]
  · intro fr st; simp [diffGo, Bind.bind, Except.bind]
  · intro rest fr st; simp [diffGo, Bind.bind, Except.bind]
  · intro n h1 h2 h3 h4 h5 h6 rest h
    rw [vnode_applyJournal, applyGo.eq_def]
    simp [h1, h2, h3, h4, h5, h6, Except.map]

/-- Witness for C9 at the unrecognized opcode `ElementInsert` (5). -/
theorem C9_fatal_errors_witness :
    vnode_applyJournal [JEntry.num 5] c10empty = Except.error "Unsupported opCode" :=
  C9_fatal_errors.2.2.2.2.2 5 (by decide) (by decide) (by decide) (by decide)
    (by decide) (by decide) [] c10empty

/-! ### C6 — where the stale-text purge actually runs -/

def c6heap : Heap :=
  { nodes := [(0, c5root), (1, newTextData "a"), (2, newTextData "b"), (3, newTextData "c")],
    nextId := 4 }

def c6div : VNodeData :=
  { kind := NodeKind.element, tag := "div", txt := "", attrs := [],
    renderQrl := none, props := none, children := [] }

def c6heapE : Heap :=
  { nodes := [(0, c5root), (1, newTextData "a"), (2, newTextData "b"), (3, c6div)],
    nextId := 4 }

def c6heapF : Heap :=
  { nodes := [(0, { c5root with children := [1, 2] }), (1, newTextData "a"), (2, newVirtualData)],
    nextId := 3 }

def c6heapC : Heap :=
  { nodes := [(0, { c5root with children := [1, 2] }), (1, newTextData "a"),
              (2, { newVirtualData with renderQrl := some 7, props := some [] })],
    nextId := 3 }

/-- Counterexample to claim C6 as stated: diffing the text descriptor `"x"`
against existing children `[text "a", text "b", text "c"]` leaves the stale
consecutive text nodes 2 and 3 at the cursor unremoved — the journal contains
no `Remove` entry at all (node 3 is not even mentioned); the engine overwrites
node 1 in place and truncates the suffix after the descriptors are exhausted. -/
theorem C6_text_descriptor_no_purge :
    vnode_diff (JSXChild.text "x") 0 c6heap =
      Except.ok { heap := c6heap,
                  journal := [JEntry.num opTextSet, JEntry.vnode 1, JEntry.str "x",
                              JEntry.num opTruncate, JEntry.vnode 0, JEntry.vnode 2],
                  queue := [] }
    ∧ JEntry.num opRemove ∉
        [JEntry.num opTextSet, JEntry.vnode 1, JEntry.str "x",
         JEntry.num opTruncate, JEntry.vnode 0, JEntry.vnode 2]
    ∧ JEntry.vnode 3 ∉
        [JEntry.num opTextSet, JEntry.vnode 1, JEntry.str "x",
         JEntry.num opTruncate, JEntry.vnode 0, JEntry.vnode 2] := by
  refine ⟨?_, by decide, by decide⟩
  simp [vnode_diff, rootChildren, diffGo, c6heap, c5root, expectNoMoreE, expectTextE,
        advanceF, vnode_getFirstChild, vnode_getNextSibling, nextAfter, vnode_isTextVNode,
        vnode_getText, childrenOf, Heap.get?, newTextData, optEntry,
        Bind.bind, Except.bind]

/-- Claim C6 amended: the removal of existing consecutive text nodes at the
cursor (one `Remove` entry each) happens before matching an *element*,
*fragment* or *component* descriptor, not before a text descriptor; a text
descriptor reuses the text node at the cursor in place, and text nodes left
over when the frame's descriptors are exhausted fall to the suffix
truncation. -/
theorem C6_purge_before_element_amended :
    vnode_diff (JSXChild.element "div" none [] []) 0 c6heapE =
      Except.ok { heap := c6heapE,
                  journal := [JEntry.num opRemove, JEntry.vnode 0, JEntry.vnode 1,
                              JEntry.num opRemove, JEntry.vnode 0, JEntry.vnode 2],
                  queue := [] }
    ∧ vnode_diff (JSXChild.fragment []) 0 c6heapF =
        Except.ok { heap := c6heapF,
                    journal := [JEntry.num opRemove, JEntry.vnode 0, JEntry.vnode 1],
                    queue := [] }
    ∧ vnode_diff (JSXChild.component 7 []) 0 c6heapC =
        Except.ok { heap := c6heapC,
                    journal := [JEntry.num opRemove, JEntry.vnode 0, JEntry.vnode 1],
                    queue := [] } := by
  refine ⟨?_, ?_, ?_⟩
  · simp [vnode_diff, rootChildren, diffGo, c6heapE, c6div, c5root, expectNoMoreE,
          expectNoMoreTextNodesE, textPurgeRun, expectElementE, setBulkProps, bulkRecords,
          buildAttrs, mapSet, looseEq, vnode_getKey, mapGet, advanceF, vnode_getFirstChild,
          vnode_getNextSibling, nextAfter, vnode_isTextVNode, vnode_isElementVNode,
          vnode_getElementName, childrenOf, Heap.get?, newTextData, ELEMENT_KEY, optEntry,
          Bind.bind, Except.bind]
  · simp [vnode_diff, rootChildren, diffGo, c6heapF, c5root, expectNoMoreE,
          expectNoMoreTextNodesE, textPurgeRun, expectVirtualE, advanceF, vnode_getFirstChild,
          vnode_getNextSibling, nextAfter, vnode_isTextVNode, vnode_isVirtualVNode,
          childrenOf, Heap.get?, newTextData, newVirtualData, optEntry,
          Bind.bind, Except.bind]
  · simp [vnode_diff, rootChildren, diffGo, c6heapC, c5root, expectNoMoreE,
          expectNoMoreTextNodesE, textPurgeRun, expectVirtualE, expectComponentE,
          shallowEqual, sortKeys, lookupProp, advanceF, vnode_getFirstChild,
          vnode_getNextSibling, nextAfter, vnode_isTextVNode, vnode_isVirtualVNode,
          childrenOf, Heap.get?, newTextData, newVirtualData, optEntry,
          Bind.bind, Except.bind]

/-! ### C1 — apply-then-rediff idempotence -/

def c1div : VNodeData :=
  { kind := NodeKind.element, tag := "div", txt := "", attrs := [],
    renderQrl := none, props := none, children := [] }

def c1heap : Heap :=
  { nodes := [(0, { c5root with children := [1] }), (1, c1div)], nextId := 2 }

def c1jsx : JSXChild := JSXChild.element "span" none [] []

def c1journal1 : List JEntry :=
  [JEntry.num opMove, JEntry.vnode 0, JEntry.vnode 1, JEntry.vnode 1,
   JEntry.num opTruncate, JEntry.vnode 0, JEntry.vnode 1]

def c1heapT : Heap :=
  { nodes := [(0, { c5root with children := [] }), (1, c1div)], nextId := 2 }

/-- Claim C1 fails on the code (code bug): replacing a single *unkeyed*
`<div/>` by an unkeyed `<span/>` makes `expectElement` search for the key
`undefined` (the short-circuited `jsxKey`), which loosely matches the keyless
div, so the pass emits `Move(div before itself)` plus a truncation and never
creates a span or changes the tag.  The applied tree therefore does not
realize the descriptor, and diffing the same descriptor against it again
appends an `Insert` — a non-empty journal, where the claim demands an empty
one. -/
theorem C1_div_span_not_idempotent :
    vnode_diff c1jsx 0 c1heap =
      Except.ok { heap := c1heap, journal := c1journal1, queue := [] }
    ∧ vnode_applyJournal c1journal1 c1heap = Except.ok (c1heapT, [])
    ∧ vnode_diff c1jsx 0 c1heapT =
        Except.ok { heap := { nodes := [(0, { c5root with children := [] }), (1, c1div),
                                        (2, newElementData "span")], nextId := 3 },
                    journal := [JEntry.num opInsert, JEntry.vnode 0, JEntry.vnode 2, JEntry.nullv],
                    queue := [] }
    ∧ [JEntry.num opInsert, JEntry.vnode 0, JEntry.vnode 2, JEntry.nullv] ≠ ([] : List JEntry) := by
  refine ⟨?_, ?_, ?_, by decide⟩
  · simp [vnode_diff, rootChildren, diffGo, c1jsx, c1heap, c1div, c5root, c1journal1,
          expectNoMoreE, expectNoMoreTextNodesE, textPurgeRun, expectElementE, setBulkProps,
          bulkRecords, buildAttrs, mapSet, retrieveChildWithKey, collectKey, spliceKey,
          looseEq, vnode_getKey, mapGet, advanceF, vnode_getFirstChild, vnode_getNextSibling,
          nextAfter, vnode_isTextVNode, vnode_isElementVNode, vnode_getElementName,
          childrenOf, Heap.get?, Heap.alloc, newElementData, ELEMENT_KEY, optEntry,
          Bind.bind, Except.bind]
  · simp [vnode_applyJournal, applyGo, c1journal1, c1heap, c1heapT, c1div, c5root,
          vnode_remove, vnode_insertBefore, vnode_truncate, insBefore, Heap.modify,
          Heap.get?, Heap.set, setAssoc, opTruncate, opTextSet, opInsert, opRemove,
          opMove, opAttributes, Except.map, List.erase]
  · simp [vnode_diff, rootChildren, diffGo, c1jsx, c1heapT, c1div, c5root,
          expectNoMoreE, expectNoMoreTextNodesE, textPurgeRun, expectElementE, setBulkProps,
          bulkRecords, buildAttrs, mapSet, retrieveChildWithKey, collectKey, spliceKey,
          looseEq, vnode_getKey, mapGet, advanceF, vnode_getFirstChild, vnode_getNextSibling,
          nextAfter, vnode_isTextVNode, vnode_isElementVNode, vnode_getElementName,
          childrenOf, Heap.get?, Heap.alloc, newElementData, ELEMENT_KEY, optEntry,
          Bind.bind, Except.bind]

/-! ### C7 — what a diff pass may and may not touch -/

/-- Shape of a node that the diff pass must leave alone: everything except the
stored render-function reference. -/
def nodeShapeEq (d d' : VNodeData) : Prop :=
  d'.kind = d.kind ∧ d'.tag = d.tag ∧ d'.txt = d.txt ∧ d'.attrs = d.attrs ∧
  d'.children = d.children ∧ d'.props = d.props

/-- Every node of `h` is still present in `h'` with unchanged shape. -/
def heapPreserves (h h' : Heap) : Prop :=
  ∀ i d, h.get? i = some d → ∃ d', h'.get? i = some d' ∧ nodeShapeEq d d'

theorem nodeShapeEq_refl (d : VNodeData) : nodeShapeEq d d := by
  simp [nodeShapeEq]

theorem nodeShapeEq_trans {a b c : VNodeData} (h1 : nodeShapeEq a b) (h2 : nodeShapeEq b c) :
    nodeShapeEq a c := by
  obtain ⟨k1, t1, x1, a1, c1, p1⟩ := h1
  obtain ⟨k2, t2, x2, a2, c2, p2⟩ := h2
  exact ⟨k2.trans k1, t2.trans t1, x2.trans x1, a2.trans a1, c2.trans c1, p2.trans p1⟩

theorem heapPreserves_refl (h : Heap) : heapPreserves h h := by
  intro i d hd; exact ⟨d, hd, nodeShapeEq_refl d⟩

theorem heapPreserves_of_eq {h h' : Heap} (e : h' = h) : heapPreserves h h' := by
  subst e; exact heapPreserves_refl _

theorem heapPreserves_trans {a b c : Heap} (h1 : heapPreserves a b) (h2 : heapPreserves b c) :
    heapPreserves a c := by
  intro i d hd
  obtain ⟨d1, hd1, s1⟩ := h1 i d hd
  obtain ⟨d2, hd2, s2⟩ := h2 i d1 hd1
  exact ⟨d2, hd2, nodeShapeEq_trans s1 s2⟩

theorem Heap.get?_alloc (h : Heap) (nd : VNodeData) (i : Nat) (d : VNodeData)
    (hd : h.get? i = some d) : (h.alloc nd).2.get? i = some d := by
  simp only [Heap.get?, Heap.alloc] at hd ⊢
  rw [List.find?_append]
  cases hf : List.find? (fun p => p.1 == i) h.nodes with
  | none => rw [hf] at hd; simp at hd
  | some x =>
    rw [hf] at hd
    simp only [Option.or_some]
    exact hd

theorem heapPreserves_alloc (h : Heap) (nd : VNodeData) : heapPreserves h (h.alloc nd).2 := by
  intro i d hd
  exact ⟨d, Heap.get?_alloc h nd i d hd, nodeShapeEq_refl d⟩

theorem find?_setAssoc_ne (l : List (Nat × VNodeData)) (j i : Nat) (d : VNodeData)
    (hne : j ≠ i) :
    (setAssoc l j d).find? (fun p => p.1 == i) = l.find? (fun p => p.1 == i) := by
  have hji : (j == i) = false := beq_eq_false_iff_ne.mpr hne
  induction l with
  | nil => simp [setAssoc, List.find?, hji]
  | cons x rest ih =>
    obtain ⟨a, e⟩ := x
    by_cases hx : a = j
    · subst hx
      simp only [setAssoc, if_pos rfl]
      simp [List.find?, hji]
    · simp only [setAssoc, if_neg hx]
      by_cases hai : a = i
      · subst hai
        simp [List.find?]
      · have haib : (a == i) = false := beq_eq_false_iff_ne.mpr hai
        simp [List.find?, haib, ih]

theorem find?_setAssoc_self (l : List (Nat × VNodeData)) (j : Nat) (d : VNodeData) :
    (setAssoc l j d).find? (fun p => p.1 == j) = some (j, d) := by
  induction l with
  | nil => simp [setAssoc, List.find?]
  | cons x rest ih =>
    obtain ⟨a, e⟩ := x
    by_cases hx : a = j
    · subst hx
      simp [setAssoc, List.find?]
    · have hab : (a == j) = false := beq_eq_false_iff_ne.mpr hx
      simp [setAssoc, if_neg hx, List.find?, hab, ih]

theorem Heap.get?_modify_ne (h : Heap) (j : Nat) (f : VNodeData → VNodeData) (i : Nat)
    (hne : j ≠ i) : (h.modify j f).get? i = h.get? i := by
  simp only [Heap.modify]
  cases hg : h.get? j with
  | none => rfl
  | some d =>
    simp only [Heap.get?, Heap.set]
    rw [find?_setAssoc_ne _ _ _ _ hne]

theorem Heap.get?_modify_self (h : Heap) (j : Nat) (f : VNodeData → VNodeData) (d : VNodeData)
    (hd : h.get? j = some d) : (h.modify j f).get? j = some (f d) := by
  simp only [Heap.modify, hd]
  simp only [Heap.get?, Heap.set]
  rw [find?_setAssoc_self]
  simp

theorem vnode_setProp_onRender (h : Heap) (n : Nat) (v : Val) :
    vnode_setProp h n OnRenderProp v =
      h.modify n (fun d =>
        { d with renderQrl := match v with | Val.qrl q => some q | _ => none }) := by
  simp [vnode_setProp]

theorem heapPreserves_setRenderProp (h : Heap) (n : Nat) (v : Val) :
    heapPreserves h (vnode_setProp h n OnRenderProp v) := by
  intro i d hd
  rw [vnode_setProp_onRender]
  by_cases hni : n = i
  · subst hni
    refine ⟨_, Heap.get?_modify_self h n _ d hd, ?_⟩
    simp [nodeShapeEq]
  · rw [Heap.get?_modify_ne h n _ i hni]
    exact ⟨d, hd, nodeShapeEq_refl d⟩

theorem expectNoMoreE_heap (fr : Frame) (st : DiffState) :
    (expectNoMoreE fr st).heap = st.heap := by
  unfold expectNoMoreE; split <;> rfl

theorem expectNoMoreTextNodesE_heap (fr : Frame) (st : DiffState) :
    (expectNoMoreTextNodesE fr st).2.heap = st.heap := by
  cases hc : fr.current <;> simp [expectNoMoreTextNodesE, hc]

theorem setBulkProps_heap (v : Nat) (src : List (String × Val)) (st : DiffState) :
    (setBulkProps v src st).heap = st.heap := by
  by_cases hr : (bulkRecords src (match st.heap.get? v with | some d => d.attrs | none => [])).1 = []
  · simp [setBulkProps, hr]
  · simp [setBulkProps, hr]

theorem expectTextE_preserves (s : String) (fr : Frame) (st : DiffState) :
    heapPreserves st.heap (expectTextE s fr st).2.heap := by
  cases hc : fr.current with
  | none => simp only [expectTextE, hc]; exact heapPreserves_alloc _ _
  | some c =>
    by_cases ht : vnode_isTextVNode st.heap c
    · by_cases hx : s ≠ vnode_getText st.heap c
      · simp only [expectTextE, hc, if_pos ht, if_pos hx]
        exact heapPreserves_refl _
      · simp only [expectTextE, hc, if_pos ht, if_neg hx]
        exact heapPreserves_refl _
    · simp only [expectTextE, hc, if_neg ht]
      exact heapPreserves_alloc _ _

theorem expectElementE_preserves (tag : String) (key : Option String)
    (attrs : List (String × Val)) (fr : Frame) (st : DiffState) :
    heapPreserves st.heap (expectElementE tag key attrs fr st).2.heap := by
  simp only [expectElementE, setBulkProps_heap]
  split
  · exact heapPreserves_refl _
  · split
    · exact heapPreserves_alloc _ _
    · split
      · exact heapPreserves_alloc _ _
      · exact heapPreserves_refl _

theorem expectVirtualE_preserves (fr : Frame) (st : DiffState) :
    heapPreserves st.heap (expectVirtualE fr st).2.heap := by
  cases hc : fr.current with
  | none => simp only [expectVirtualE, hc]; exact heapPreserves_alloc _ _
  | some c =>
    by_cases hv : vnode_isVirtualVNode st.heap c
    · simp only [expectVirtualE, hc, if_pos hv]; exact heapPreserves_refl _
    · simp only [expectVirtualE, hc, if_neg hv]; exact heapPreserves_alloc _ _

theorem expectComponentE_preserves (hash : Nat) (props : List (String × Val))
    (fr : Frame) (st : DiffState) (st' : DiffState)
    (hok : expectComponentE hash props fr st = Except.ok st') :
    heapPreserves st.heap st'.heap := by
  simp only [expectComponentE] at hok
  split at hok
  · cases hok
    exact heapPreserves_setRenderProp _ _ _
  · split at hok
    · cases hok
    · split at hok <;> cases hok <;> exact heapPreserves_refl _

set_option maxHeartbeats 1000000 in
theorem diffGo_preserves : ∀ (t : DiffTask) (fr : Frame) (st : DiffState) (r : Frame × DiffState),
    diffGo t fr st = Except.ok r → heapPreserves st.heap r.2.heap := by
  suffices H : ∀ (n : Nat) (t : DiffTask) (fr : Frame) (st : DiffState), t.weight ≤ n →
      ∀ r, diffGo t fr st = Except.ok r → heapPreserves st.heap r.2.heap by
    intro t fr st r h
    exact H t.weight t fr st (Nat.le_refl _) r h
  intro n
  induction n using Nat.strong_induction_on with
  | _ n IH =>
    intro t fr st hw r h
    cases t with
    | list cs =>
      cases cs with
      | nil =>
        rw [diffGo.eq_def] at h
        simp only [Except.ok.injEq] at h
        subst h
        exact heapPreserves_refl _
      | cons c rest =>
        rw [diffGo.eq_def] at h
        simp only [Bind.bind, Except.bind] at h
        split at h
        · simp at h
        · rename_i a heq
          have h1 : (DiffTask.step c).weight < n := by
            refine Nat.lt_of_lt_of_le ?_ hw
            simp only [DiffTask.weight, JSXChild.size, JSXChild.sizeList]
            omega
          have h2 : (DiffTask.list rest).weight < n := by
            refine Nat.lt_of_lt_of_le ?_ hw
            simp only [DiffTask.weight, JSXChild.size, JSXChild.sizeList]
            omega
          exact heapPreserves_trans
            (IH _ h1 _ fr st (Nat.le_refl _) a heq)
            (IH _ h2 _ a.1 a.2 (Nat.le_refl _) r h)
    | step c =>
      cases c with
      | arr xs =>
        cases xs with
        | nil =>
          rw [diffGo.eq_def] at h
          simp only [Except.ok.injEq] at h
          subst h
          exact heapPreserves_of_eq (expectNoMoreE_heap fr st)
        | cons x xs =>
          rw [diffGo.eq_def] at h
          have h1 : (DiffTask.list (x :: xs)).weight < n := by
            refine Nat.lt_of_lt_of_le ?_ hw
            simp only [DiffTask.weight, JSXChild.size, JSXChild.sizeList]
            omega
          exact IH _ h1 _ fr st (Nat.le_refl _) r h
      | text s =>
        rw [diffGo.eq_def] at h
        simp only [Bind.bind, Except.bind] at h
        split at h
        · simp at h
        · rename_i a heq
          simp only [Except.ok.injEq] at h
          subst h
          have h1 : (DiffTask.one (JSXChild.text s)).weight < n := by
            refine Nat.lt_of_lt_of_le ?_ hw
            simp only [DiffTask.weight, JSXChild.size, JSXChild.sizeList]
            omega
          exact IH _ h1 _ fr st (Nat.le_refl _) a heq
      | num m =>
        rw [diffGo.eq_def] at h
        simp only [Bind.bind, Except.bind] at h
        split at h
        · simp at h
        · rename_i a heq
          simp only [Except.ok.injEq] at h
          subst h
          have h1 : (DiffTask.one (JSXChild.num m)).weight < n := by
            refine Nat.lt_of_lt_of_le ?_ hw
            simp only [DiffTask.weight, JSXChild.size, JSXChild.sizeList]
            omega
          exact IH _ h1 _ fr st (Nat.le_refl _) a heq
      | element tag key attrs children =>
        rw [diffGo.eq_def] at h
        simp only [Bind.bind, Except.bind] at h
        split at h
        · simp at h
        · rename_i a heq
          simp only [Except.ok.injEq] at h
          subst h
          have h1 : (DiffTask.one (JSXChild.element tag key attrs children)).weight < n := by
            refine Nat.lt_of_lt_of_le ?_ hw
            simp only [DiffTask.weight, JSXChild.size, JSXChild.sizeList]
            omega
          exact IH _ h1 _ fr st (Nat.le_refl _) a heq
      | fragment children =>
        rw [diffGo.eq_def] at h
        simp only [Bind.bind, Except.bind] at h
        split at h
        · simp at h
        · rename_i a heq
          simp only [Except.ok.injEq] at h
          subst h
          have h1 : (DiffTask.one (JSXChild.fragment children)).weight < n := by
            refine Nat.lt_of_lt_of_le ?_ hw
            simp only [DiffTask.weight, JSXChild.size, JSXChild.sizeList]
            omega
          exact IH _ h1 _ fr st (Nat.le_refl _) a heq
      | component hash props =>
        rw [diffGo.eq_def] at h
        simp only [Bind.bind, Except.bind] at h
        split at h
        · simp at h
        · rename_i a heq
          simp only [Except.ok.injEq] at h
          subst h
          have h1 : (DiffTask.one (JSXChild.component hash props)).weight < n := by
            refine Nat.lt_of_lt_of_le ?_ hw
            simp only [DiffTask.weight, JSXChild.size, JSXChild.sizeList]
            omega
          exact IH _ h1 _ fr st (Nat.le_refl _) a heq
      | slot =>
        rw [diffGo.eq_def] at h
        simp only [Bind.bind, Except.bind] at h
        split at h
        · simp at h
        · rename_i a heq
          rw [diffGo.eq_def] at heq
          simp at heq
      | signal =>
        rw [diffGo.eq_def] at h
        simp only [Bind.bind, Except.bind] at h
        split at h
        · simp at h
        · rename_i a heq
          rw [diffGo.eq_def] at heq
          simp at heq
      | otherJSX =>
        rw [diffGo.eq_def] at h
        simp only [Bind.bind, Except.bind] at h
        split at h
        · simp at h
        · rename_i a heq
          rw [diffGo.eq_def] at heq
          simp at heq
      | nullObject =>
        rw [diffGo.eq_def] at h
        simp only [Bind.bind, Except.bind] at h
        split at h
        · simp at h
        · rename_i a heq
          rw [diffGo.eq_def] at heq
          simp at heq
      | undef =>
        rw [diffGo.eq_def] at h
        simp only [Bind.bind, Except.bind] at h
        split at h
        · simp at h
        · rename_i a heq
          simp only [Except.ok.injEq] at h
          subst h
          have h1 : (DiffTask.one JSXChild.undef).weight < n := by
            refine Nat.lt_of_lt_of_le ?_ hw
            simp only [DiffTask.weight, JSXChild.size, JSXChild.sizeList]
            omega
          exact IH _ h1 _ fr st (Nat.le_refl _) a heq
      | boolVal b =>
        rw [diffGo.eq_def] at h
        simp only [Bind.bind, Except.bind] at h
        split at h
        · simp at h
        · rename_i a heq
          simp only [Except.ok.injEq] at h
          subst h
          have h1 : (DiffTask.one (JSXChild.boolVal b)).weight < n := by
            refine Nat.lt_of_lt_of_le ?_ hw
            simp only [DiffTask.weight, JSXChild.size, JSXChild.sizeList]
            omega
          exact IH _ h1 _ fr st (Nat.le_refl _) a heq
    | one c =>
      cases c with
      | text s =>
        rw [diffGo.eq_def] at h
        simp only [Except.ok.injEq] at h
        subst h
        exact expectTextE_preserves s fr st
      | num m =>
        rw [diffGo.eq_def] at h
        simp only [Except.ok.injEq] at h
        subst h
        exact expectTextE_preserves _ fr st
      | undef =>
        rw [diffGo.eq_def] at h
        simp only [Except.ok.injEq] at h
        subst h
        exact expectTextE_preserves _ fr st
      | boolVal b =>
        rw [diffGo.eq_def] at h
        simp only [Except.ok.injEq] at h
        subst h
        exact expectTextE_preserves _ fr st
      | arr xs =>
        rw [diffGo.eq_def] at h
        simp only [Bind.bind, Except.bind] at h
        have h1 : (DiffTask.list xs).weight < n := by
          refine Nat.lt_of_lt_of_le ?_ hw
          simp only [DiffTask.weight, JSXChild.size, JSXChild.sizeList]
          omega
        exact IH _ h1 _ fr st (Nat.le_refl _) r h
      | slot => rw [diffGo.eq_def] at h; simp at h
      | signal => rw [diffGo.eq_def] at h; simp at h
      | otherJSX => rw [diffGo.eq_def] at h; simp at h
      | nullObject => rw [diffGo.eq_def] at h; simp at h
      | element tag key attrs children =>
        rw [diffGo.eq_def] at h
        simp only [Bind.bind, Except.bind] at h
        split at h
        · simp at h
        · rename_i target htarget
          split at h
          · simp at h
          · rename_i a heq
            simp only [Except.ok.injEq] at h
            subst h
            have e1 := expectNoMoreTextNodesE_heap fr st
            have p2 := expectElementE_preserves tag key attrs
              (expectNoMoreTextNodesE fr st).1 (expectNoMoreTextNodesE fr st).2
            have h1 : (DiffTask.list children).weight < n := by
              refine Nat.lt_of_lt_of_le ?_ hw
              simp only [DiffTask.weight, JSXChild.size, JSXChild.sizeList]
              omega
            have p3 := IH _ h1 _ _ _ (Nat.le_refl _) a heq
            exact heapPreserves_trans
              (heapPreserves_trans (heapPreserves_trans (heapPreserves_of_eq e1) p2) p3)
              (heapPreserves_of_eq (expectNoMoreE_heap a.1 a.2))
      | fragment children =>
        rw [diffGo.eq_def] at h
        simp only [Bind.bind, Except.bind] at h
        split at h
        · simp at h
        · rename_i target htarget
          split at h
          · simp at h
          · rename_i a heq
            simp only [Except.ok.injEq] at h
            subst h
            have e1 := expectNoMoreTextNodesE_heap fr st
            have p2 := expectVirtualE_preserves
              (expectNoMoreTextNodesE fr st).1 (expectNoMoreTextNodesE fr st).2
            have h1 : (DiffTask.list children).weight < n := by
              refine Nat.lt_of_lt_of_le ?_ hw
              simp only [DiffTask.weight, JSXChild.size, JSXChild.sizeList]
              omega
            have p3 := IH _ h1 _ _ _ (Nat.le_refl _) a heq
            exact heapPreserves_trans
              (heapPreserves_trans (heapPreserves_trans (heapPreserves_of_eq e1) p2) p3)
              (heapPreserves_of_eq (expectNoMoreE_heap a.1 a.2))
      | component hash props =>
        rw [diffGo.eq_def] at h
        simp only [Bind.bind, Except.bind] at h
        split at h
        · simp at h
        · rename_i a heq
          simp only [Except.ok.injEq] at h
          subst h
          have e1 := expectNoMoreTextNodesE_heap fr st
          have p2 := expectVirtualE_preserves
            (expectNoMoreTextNodesE fr st).1 (expectNoMoreTextNodesE fr st).2
          have p3 := expectComponentE_preserves hash props _ _ a heq
          exact heapPreserves_trans (heapPreserves_trans (heapPreserves_of_eq e1) p2) p3

def c7empty : Heap := { nodes := [(0, { c5root with children := [] })], nextId := 1 }

def c7host : VNodeData := { newVirtualData with renderQrl := some 5, props := some [] }

def c7cheap : Heap :=
  { nodes := [(0, { c5root with children := [1] }), (1, c7host)], nextId := 2 }

/-- Counterexample to claim C7 as stated: the diff pass itself creates VNodes
and mutates one.  Diffing `<div/>` against an empty parent allocates the new
element node (id 1) during the pass — the returned heap contains it before any
journal application — and diffing a component whose stored render hash (5)
differs from the requested one (7) writes the host's render prop during the
pass (`vnode_setProp` in `expectComponent`), with the journal still empty. -/
theorem C7_diff_allocates_and_writes_renderprop :
    vnode_diff (JSXChild.element "div" none [] []) 0 c7empty =
      Except.ok { heap := { nodes := [(0, { c5root with children := [] }),
                                      (1, newElementData "div")], nextId := 2 },
                  journal := [JEntry.num opInsert, JEntry.vnode 0, JEntry.vnode 1, JEntry.nullv],
                  queue := [] }
    ∧ c7empty.get? 1 = none
    ∧ Heap.get? { nodes := [(0, { c5root with children := [] }),
                            (1, newElementData "div")], nextId := 2 } 1 =
        some (newElementData "div")
    ∧ vnode_diff (JSXChild.component 7 []) 0 c7cheap =
        Except.ok { heap := { nodes := [(0, { c5root with children := [1] }),
                                        (1, { c7host with renderQrl := some 7 })], nextId := 2 },
                    journal := [], queue := [(1, 7, [])] }
    ∧ c7cheap.get? 1 = some c7host
    ∧ Heap.get? { nodes := [(0, { c5root with children := [1] }),
                            (1, { c7host with renderQrl := some 7 })], nextId := 2 } 1 =
        some { c7host with renderQrl := some 7 }
    ∧ (some c7host ≠ some { c7host with renderQrl := some 7 }) := by
  refine ⟨?_, by decide, by decide, ?_, by decide, by decide, by decide⟩
  · simp [vnode_diff, rootChildren, diffGo, c7empty, c5root, expectNoMoreE,
          expectNoMoreTextNodesE, textPurgeRun, expectElementE, setBulkProps, bulkRecords,
          buildAttrs, mapSet, retrieveChildWithKey, collectKey, spliceKey, looseEq,
          vnode_getKey, mapGet, advanceF, vnode_getFirstChild, vnode_getNextSibling,
          nextAfter, vnode_isTextVNode, vnode_isElementVNode, vnode_getElementName,
          childrenOf, Heap.get?, Heap.alloc, newElementData, ELEMENT_KEY, optEntry,
          Bind.bind, Except.bind]
  · simp [vnode_diff, rootChildren, diffGo, c7cheap, c7host, c5root, newVirtualData,
          expectNoMoreE, expectNoMoreTextNodesE, textPurgeRun, expectVirtualE,
          expectComponentE, vnode_setProp, Heap.modify, Heap.get?, Heap.set, setAssoc,
          OnRenderProp, shallowEqual, advanceF, vnode_getFirstChild, vnode_getNextSibling,
          nextAfter, vnode_isTextVNode, vnode_isVirtualVNode, childrenOf,
          Bind.bind, Except.bind]

/-- Claim C7 amended: during a diff pass the persistent tree is read-only
*except* that the pass allocates the new (not yet linked) VNodes referenced by
its `Insert` entries and writes a component host's stored render-function
reference; no existing node's kind, tag, text, attribute list, props snapshot
or child list is changed by the pass — those mutations happen only when the
journal applier runs. -/
theorem C7_diff_pass_read_only_amended :
    ∀ (jsx : JSXChild) (p : Nat) (h : Heap) (st' : DiffState),
      vnode_diff jsx p h = Except.ok st' → heapPreserves h st'.heap := by
  intro jsx p h st' hok
  simp only [vnode_diff, Bind.bind, Except.bind] at hok
  split at hok
  · simp at hok
  · rename_i a heq
    simp only [Except.ok.injEq] at hok
    subst hok
    have base : heapPreserves h (DiffState.mk h [] []).heap := heapPreserves_refl h
    have p1 := diffGo_preserves _ _ _ _ heq
    exact heapPreserves_trans p1 (heapPreserves_of_eq (expectNoMoreE_heap a.1 a.2))

/-- Witness for C7's amended theorem: a component diff whose gating passes
leaves every node of the heap in place. -/
theorem C7_diff_pass_read_only_amended_witness :
    heapPreserves c4heap c4heap :=
  C7_diff_pass_read_only_amended (JSXChild.component 7 [("x", Val.num 1)]) 0 c4heap
    { heap := c4heap, journal := [], queue := [] }
    (by simp [vnode_diff, rootChildren, diffGo, c4heap, c4host, c5root,
          expectNoMoreE, expectNoMoreTextNodesE, textPurgeRun, expectVirtualE,
          expectComponentE, shallowEqual, sortKeys, insertSorted, lookupProp,
          advanceF, vnode_getFirstChild, vnode_getNextSibling, nextAfter,
          vnode_isTextVNode, vnode_isVirtualVNode, childrenOf, Heap.get?,
          Bind.bind, Except.bind])

/-! ### C2 — the attribute merge of `setBulkProps` -/

/-- Sorted merge of the two key sequences (set union of the keys in ascending
order, assuming both inputs sorted and duplicate-free). -/
def mergeSortedKeys : List String → List String → List String
  | [], l => l
  | l, [] => l
  | a :: as, b :: bs =>
    if a = b then a :: mergeSortedKeys as bs
    else if a < b then a :: mergeSortedKeys as (b :: bs)
    else b :: mergeSortedKeys (a :: as) bs
termination_by l1 l2 => l1.length + l2.length
decreasing_by all_goals first | (simp; omega) | simp

/-- One key's outcome in the merge described by the (amended) claim: a key
only in the new list is an addition; a key in both with differing values is an
update (equal values are skipped); a key only in the existing list becomes a
`null` removal, except that an `on:`-prefixed existing key reached after the
new list is exhausted (every new key sorts below it) is skipped and only marks
the event-dispatch patch. -/
def attrFn (src dst : List (String × Val)) (k : String) : Option (String × Val) :=
  match lookupProp src k, lookupProp dst k with
  | some sv, some dv => if sv = dv then none else some (k, sv)
  | some sv, none => some (k, sv)
  | none, some _ =>
    if jsStartsWith k "on:" && src.all (fun s => decide (s.1 < k)) then none
    else some (k, Val.null)
  | none, none => none

/-- The claim's merge, over the sorted union of the keys. -/
def attrMergeSpec (src dst : List (String × Val)) : List (String × Val) :=
  (mergeSortedKeys (src.map (fun p => p.1)) (dst.map (fun p => p.1))).filterMap
    (attrFn src dst)

/-- Keys strictly ascending (sorted and duplicate-free). -/
def StrSorted (l : List (String × Val)) : Prop :=
  List.Pairwise (fun a b => a.1 < b.1) l

theorem lookupProp_cons_self (k : String) (v : Val) (l : List (String × Val)) :
    lookupProp ((k, v) :: l) k = some v := by
  simp [lookupProp, List.find?]

theorem lookupProp_cons_ne (k' : String) (v' : Val) (l : List (String × Val)) (k : String)
    (hne : k' ≠ k) : lookupProp ((k', v') :: l) k = lookupProp l k := by
  simp [lookupProp, List.find?, beq_eq_false_iff_ne.mpr hne]

theorem lookupProp_eq_none (l : List (String × Val)) (k : String)
    (h : ∀ p ∈ l, p.1 ≠ k) : lookupProp l k = none := by
  have hf : List.find? (fun p => p.1 == k) l = none := by
    rw [List.find?_eq_none]
    intro x hx
    simpa using h x hx
  simp [lookupProp, hf]

theorem mergeSortedKeys_nil_left (bs : List String) : mergeSortedKeys [] bs = bs := by
  cases bs <;> simp [mergeSortedKeys]

theorem mergeSortedKeys_nil_right (as : List String) : mergeSortedKeys as [] = as := by
  cases as <;> simp [mergeSortedKeys]

theorem mergeSortedKeys_cons_cons (a b : String) (as bs : List String) :
    mergeSortedKeys (a :: as) (b :: bs) =
      if a = b then a :: mergeSortedKeys as bs
      else if a < b then a :: mergeSortedKeys as (b :: bs)
      else b :: mergeSortedKeys (a :: as) bs := by
  simp only [mergeSortedKeys]

theorem mem_mergeSortedKeys : ∀ (as bs : List String) (k : String),
    k ∈ mergeSortedKeys as bs ↔ k ∈ as ∨ k ∈ bs := by
  intro as
  induction as with
  | nil => intro bs k; simp [mergeSortedKeys_nil_left]
  | cons a as iha =>
    intro bs
    induction bs with
    | nil => intro k; simp [mergeSortedKeys_nil_right]
    | cons b bs ihb =>
      intro k
      by_cases hab : a = b
      · subst hab
        rw [mergeSortedKeys_cons_cons, if_pos rfl]
        simp only [List.mem_cons, iha bs k]
        tauto
      · by_cases hlt : a < b
        · rw [mergeSortedKeys_cons_cons, if_neg hab, if_pos hlt]
          simp only [List.mem_cons, iha (b :: bs) k, List.mem_cons]
          tauto
        · rw [mergeSortedKeys_cons_cons, if_neg hab, if_neg hlt]
          simp only [List.mem_cons, ihb k, List.mem_cons]
          tauto

theorem attrFn_src_cons_of_lt (sk : String) (sv : Val) (src dst : List (String × Val))
    (k : String) (hk : sk < k) :
    attrFn ((sk, sv) :: src) dst k = attrFn src dst k := by
  unfold attrFn
  rw [lookupProp_cons_ne sk sv src k (ne_of_lt hk)]
  rw [List.all_cons]
  have hdec : (decide ((sk, sv).1 < k)) = true := decide_eq_true hk
  rw [hdec, Bool.true_and]

theorem attrFn_dst_cons_of_ne (dk : String) (dv : Val) (src dst : List (String × Val))
    (k : String) (hne : dk ≠ k) :
    attrFn src ((dk, dv) :: dst) k = attrFn src dst k := by
  unfold attrFn
  rw [lookupProp_cons_ne dk dv dst k hne]

theorem bulkRecords_nil_cons (dk : String) (dv : Val) (dr : List (String × Val)) :
    (bulkRecords [] ((dk, dv) :: dr)).1 =
      if jsStartsWith dk "on:" then (bulkRecords [] dr).1
      else (dk, Val.null) :: (bulkRecords [] dr).1 := by
  simp only [bulkRecords]
  split <;> simp

theorem bulkRecords_cons_nil (sk : String) (sv : Val) (sr : List (String × Val)) :
    (bulkRecords ((sk, sv) :: sr) []).1 = (sk, sv) :: (bulkRecords sr []).1 := by
  simp only [bulkRecords]

theorem bulkRecords_cons_cons (sk dk : String) (sv dv : Val)
    (sr dr : List (String × Val)) :
    (bulkRecords ((sk, sv) :: sr) ((dk, dv) :: dr)).1 =
      if sk = dk then
        (if sv ≠ dv then (sk, sv) :: (bulkRecords sr dr).1 else (bulkRecords sr dr).1)
      else if sk < dk then (sk, sv) :: (bulkRecords sr ((dk, dv) :: dr)).1
      else (dk, Val.null) :: (bulkRecords ((sk, sv) :: sr) dr).1 := by
  simp only [bulkRecords]
  split
  · split <;> simp
  · split <;> simp

theorem strSorted_cons {x : String × Val} {l : List (String × Val)}
    (h : StrSorted (x :: l)) : (∀ p ∈ l, x.1 < p.1) ∧ StrSorted l := by
  rw [StrSorted, List.pairwise_cons] at h
  exact h

set_option maxHeartbeats 1000000 in
theorem bulkRecords_eq_attrMergeSpec : ∀ (src dst : List (String × Val)),
    StrSorted src → StrSorted dst → (bulkRecords src dst).1 = attrMergeSpec src dst := by
  intro src
  induction src with
  | nil =>
    intro dst _ hd
    induction dst with
    | nil => simp [bulkRecords, attrMergeSpec, mergeSortedKeys, attrFn]
    | cons d dr ihd =>
      obtain ⟨dk, dv⟩ := d
      obtain ⟨hdlt, hdtail⟩ := strSorted_cons hd
      rw [bulkRecords_nil_cons, attrMergeSpec]
      simp only [List.map_nil, List.map_cons]
      rw [mergeSortedKeys_nil_left, List.filterMap_cons]
      have htail : List.filterMap (attrFn [] ((dk, dv) :: dr)) (dr.map (fun p => p.1)) =
          attrMergeSpec [] dr := by
        rw [attrMergeSpec]
        simp only [List.map_nil]
        rw [mergeSortedKeys_nil_left]
        refine List.filterMap_congr ?_
        intro k hk
        obtain ⟨p, hp, hpk⟩ := List.mem_map.mp hk
        exact attrFn_dst_cons_of_ne dk dv [] dr k (by rw [← hpk]; exact ne_of_lt (hdlt p hp))
      have hhead : attrFn [] ((dk, dv) :: dr) dk =
          if jsStartsWith dk "on:" then none else some (dk, Val.null) := by
        simp [attrFn, lookupProp_cons_self, lookupProp]
      rw [hhead, htail, ihd hdtail]
      by_cases hon : jsStartsWith dk "on:"
      · simp [hon]
      · simp [hon]
  | cons s sr ihs =>
    intro dst hs hd
    obtain ⟨sk, sv⟩ := s
    obtain ⟨hslt, hstail⟩ := strSorted_cons hs
    induction dst with
    | nil =>
      rw [bulkRecords_cons_nil, attrMergeSpec]
      simp only [List.map_nil, List.map_cons]
      rw [mergeSortedKeys_nil_right, List.filterMap_cons]
      have htail : List.filterMap (attrFn ((sk, sv) :: sr) []) (sr.map (fun p => p.1)) =
          attrMergeSpec sr [] := by
        rw [attrMergeSpec]
        simp only [List.map_nil]
        rw [mergeSortedKeys_nil_right]
        refine List.filterMap_congr ?_
        intro k hk
        obtain ⟨p, hp, hpk⟩ := List.mem_map.mp hk
        exact attrFn_src_cons_of_lt sk sv sr [] k (by rw [← hpk]; exact hslt p hp)
      have hhead : attrFn ((sk, sv) :: sr) [] sk = some (sk, sv) := by
        simp [attrFn, lookupProp_cons_self, lookupProp]
      rw [hhead, htail, ihs [] hstail List.Pairwise.nil]
    | cons d dr ihd =>
      obtain ⟨dk, dv⟩ := d
      obtain ⟨hdlt, hdtail⟩ := strSorted_cons hd
      rw [bulkRecords_cons_cons]
      by_cases heq : sk = dk
      · subst heq
        rw [if_pos rfl, attrMergeSpec]
        simp only [List.map_cons]
        rw [mergeSortedKeys_cons_cons, if_pos rfl, List.filterMap_cons]
        have htail : List.filterMap (attrFn ((sk, sv) :: sr) ((sk, dv) :: dr))
            (mergeSortedKeys (sr.map (fun p => p.1)) (dr.map (fun p => p.1))) =
            attrMergeSpec sr dr := by
          rw [attrMergeSpec]
          refine List.filterMap_congr ?_
          intro k hk
          have hk2 := (mem_mergeSortedKeys _ _ k).mp hk
          have hklt : sk < k := by
            rcases hk2 with hk2 | hk2
            · obtain ⟨p, hp, hpk⟩ := List.mem_map.mp hk2
              rw [← hpk]; exact hslt p hp
            · obtain ⟨p, hp, hpk⟩ := List.mem_map.mp hk2
              rw [← hpk]; exact hdlt p hp
          rw [attrFn_src_cons_of_lt sk sv sr ((sk, dv) :: dr) k hklt,
              attrFn_dst_cons_of_ne sk dv sr dr k (ne_of_lt hklt)]
        have hhead : attrFn ((sk, sv) :: sr) ((sk, dv) :: dr) sk =
            if sv = dv then none else some (sk, sv) := by
          simp [attrFn, lookupProp_cons_self]
        rw [hhead, htail, ihs dr hstail hdtail]
        by_cases hvv : sv = dv
        · simp [hvv]
        · simp [hvv]
      · by_cases hlt : sk < dk
        · rw [if_neg heq, if_pos hlt, attrMergeSpec]
          simp only [List.map_cons]
          rw [mergeSortedKeys_cons_cons, if_neg heq, if_pos hlt, List.filterMap_cons]
          have hdn : lookupProp ((dk, dv) :: dr) sk = none := by
            refine lookupProp_eq_none _ _ ?_
            intro p hp
            rcases List.mem_cons.mp hp with hp1 | hp1
            · rw [hp1]; exact (ne_of_lt hlt).symm
            · exact (ne_of_lt (lt_trans hlt (hdlt p hp1))).symm
          have htail : List.filterMap (attrFn ((sk, sv) :: sr) ((dk, dv) :: dr))
              (mergeSortedKeys (sr.map (fun p => p.1)) (dk :: dr.map (fun p => p.1))) =
              attrMergeSpec sr ((dk, dv) :: dr) := by
            rw [attrMergeSpec]
            simp only [List.map_cons]
            refine List.filterMap_congr ?_
            intro k hk
            have hk2 := (mem_mergeSortedKeys _ _ k).mp hk
            have hklt : sk < k := by
              rcases hk2 with hk2 | hk2
              · obtain ⟨p, hp, hpk⟩ := List.mem_map.mp hk2
                rw [← hpk]; exact hslt p hp
              · rcases List.mem_cons.mp hk2 with hk3 | hk3
                · rw [hk3]; exact hlt
                · obtain ⟨p, hp, hpk⟩ := List.mem_map.mp hk3
                  rw [← hpk]
                  exact lt_trans hlt (hdlt p hp)
            exact attrFn_src_cons_of_lt sk sv sr ((dk, dv) :: dr) k hklt
          have hhead : attrFn ((sk, sv) :: sr) ((dk, dv) :: dr) sk = some (sk, sv) := by
            unfold attrFn
            rw [lookupProp_cons_self, hdn]
          rw [hhead, htail, ihs ((dk, dv) :: dr) hstail hd]
        · have hgt : dk < sk := by
            rcases lt_trichotomy sk dk with h1 | h1 | h1
            · exact absurd h1 hlt
            · exact absurd h1 heq
            · exact h1
          rw [if_neg heq, if_neg hlt, attrMergeSpec]
          simp only [List.map_cons]
          rw [mergeSortedKeys_cons_cons, if_neg heq, if_neg hlt, List.filterMap_cons]
          have hsn : lookupProp ((sk, sv) :: sr) dk = none := by
            refine lookupProp_eq_none _ _ ?_
            intro p hp
            rcases List.mem_cons.mp hp with hp1 | hp1
            · rw [hp1]; exact (ne_of_lt hgt).symm
            · exact (ne_of_lt (lt_trans hgt (hslt p hp1))).symm
          have htail : List.filterMap (attrFn ((sk, sv) :: sr) ((dk, dv) :: dr))
              (mergeSortedKeys (sk :: sr.map (fun p => p.1)) (dr.map (fun p => p.1))) =
              attrMergeSpec ((sk, sv) :: sr) dr := by
            rw [attrMergeSpec]
            simp only [List.map_cons]
            refine List.filterMap_congr ?_
            intro k hk
            have hk2 := (mem_mergeSortedKeys _ _ k).mp hk
            have hklt : dk < k := by
              rcases hk2 with hk2 | hk2
              · rcases List.mem_cons.mp hk2 with hk3 | hk3
                · rw [hk3]; exact hgt
                · obtain ⟨p, hp, hpk⟩ := List.mem_map.mp hk3
                  rw [← hpk]
                  exact lt_trans hgt (hslt p hp)
              · obtain ⟨p, hp, hpk⟩ := List.mem_map.mp hk2
                rw [← hpk]; exact hdlt p hp
            exact attrFn_dst_cons_of_ne dk dv ((sk, sv) :: sr) dr k (ne_of_lt hklt)
          have hhead : attrFn ((sk, sv) :: sr) ((dk, dv) :: dr) dk = some (dk, Val.null) := by
            unfold attrFn
            rw [hsn, lookupProp_cons_self]
            have hfalse : (decide ((sk, sv).1 < dk)) = false :=
              decide_eq_false (not_lt_of_gt hgt)
            rw [List.all_cons, hfalse, Bool.false_and, Bool.and_false]
            simp
          rw [hhead, htail, ihd hdtail]

def c2node : VNodeData :=
  { kind := NodeKind.element, tag := "div", txt := "",
    attrs := [("on:click", Val.str "x")], renderQrl := none, props := none, children := [] }

def c2st : DiffState :=
  { heap := { nodes := [(1, c2node)], nextId := 2 }, journal := [], queue := [] }

def c2nodeAbc : VNodeData :=
  { kind := NodeKind.element, tag := "div", txt := "",
    attrs := [("a", Val.num 1), ("b", Val.num 2), ("c", Val.num 3)],
    renderQrl := none, props := none, children := [] }

def c2stAbc : DiffState :=
  { heap := { nodes := [(1, c2nodeAbc)], nextId := 2 }, journal := [], queue := [] }

/-- Counterexample to claim C2 as stated: an existing attribute list holding
only `on:click` reconciled against an empty new list records *nothing* — no
`null` removal for `on:click` is journalled (the merge loop only sets the
event-dispatch flag for `on:`-keys once the new list is exhausted), so the
universal clause "keys present only in the existing list become `null`
removals" fails. -/
theorem C2_on_colon_removal_skipped :
    setBulkProps 1 [] c2st = c2st
    ∧ (bulkRecords [] [("on:click", Val.str "x")]).1 = []
    ∧ ([] : List (String × Val)) ≠ [("on:click", Val.null)] := by
  refine ⟨?_, by simp +decide [bulkRecords], by decide⟩
  simp +decide [setBulkProps, bulkRecords, c2st, c2node, Heap.get?]

/-- Claim C2 amended: the two sorted attribute lists are merged in one linear
key-ordered pass — keys only in the new list become additions, keys in both
with differing values become updates, equal pairs produce no entry, and keys
only in the existing list become `null` removals *except* that an existing key
starting with `on:` that is reached after the new list is exhausted is skipped
(it only marks the event-dispatch patch).  In particular previous
`{a:1,b:2,c:3}` against new `{a:1,c:9,d:4}` records exactly the removal of
`b`, the update of `c` to 9 and the addition of `d:4`, with no entry for `a`. -/
theorem C2_attr_merge_amended :
    (∀ (src dst : List (String × Val)), StrSorted src → StrSorted dst →
      (bulkRecords src dst).1 = attrMergeSpec src dst)
    ∧ (bulkRecords [("a", Val.num 1), ("c", Val.num 9), ("d", Val.num 4)]
         [("a", Val.num 1), ("b", Val.num 2), ("c", Val.num 3)]).1 =
        [("b", Val.null), ("c", Val.num 9), ("d", Val.num 4)]
    ∧ (setBulkProps 1 [("a", Val.num 1), ("c", Val.num 9), ("d", Val.num 4)] c2stAbc).journal =
        [JEntry.num opAttributes, JEntry.vnode 1,
         JEntry.str "b", JEntry.nullv,
         JEntry.str "c", JEntry.num 9,
         JEntry.str "d", JEntry.num 4] := by
  refine ⟨bulkRecords_eq_attrMergeSpec, by simp +decide [bulkRecords], ?_⟩
  simp +decide [setBulkProps, bulkRecords, c2stAbc, c2nodeAbc, Heap.get?, entryOfVal]

/-- Witness for C2's amended merge theorem at the `{a,c,d}` / `{a,b,c}`
example. -/
theorem C2_attr_merge_amended_witness :
    (bulkRecords [("a", Val.num 1), ("c", Val.num 9), ("d", Val.num 4)]
       [("a", Val.num 1), ("b", Val.num 2), ("c", Val.num 3)]).1 =
      attrMergeSpec [("a", Val.num 1), ("c", Val.num 9), ("d", Val.num 4)]
        [("a", Val.num 1), ("b", Val.num 2), ("c", Val.num 3)] :=
  C2_attr_merge_amended.1
    [("a", Val.num 1), ("c", Val.num 9), ("d", Val.num 4)]
    [("a", Val.num 1), ("b", Val.num 2), ("c", Val.num 3)]
    (by simp +decide [StrSorted]) (by simp +decide [StrSorted])

/-! ### C8 — the applier as a one-pass interpreter of structured entries -/

/-- The structured journal operations of the spec: text-set, insert-before,
truncate-suffix, remove-node, move, and a run-length attribute block. -/
inductive JOp where
  | textSet : Nat → String → JOp
  | insert : Nat → Nat → Option Nat → JOp
  | truncate : Nat → Nat → JOp
  | remove : Nat → Nat → JOp
  | move : Nat → Nat → Option Nat → JOp
  | attributes : Nat → List (String × Val) → JOp

def encodePairs (ps : List (String × Val)) : List JEntry :=
  ps.flatMap (fun kv => [JEntry.str kv.1, entryOfVal kv.2])

/-- Flat encoding of one structured op, exactly as the diff engine pushes it. -/
def encodeOp : JOp → List JEntry
  | JOp.textSet n s => [JEntry.num opTextSet, JEntry.vnode n, JEntry.str s]
  | JOp.insert p n b => [JEntry.num opInsert, JEntry.vnode p, JEntry.vnode n, optEntry b]
  | JOp.truncate p n => [JEntry.num opTruncate, JEntry.vnode p, JEntry.vnode n]
  | JOp.remove p n => [JEntry.num opRemove, JEntry.vnode p, JEntry.vnode n]
  | JOp.move p n b => [JEntry.num opMove, JEntry.vnode p, JEntry.vnode n, optEntry b]
  | JOp.attributes v ps => [JEntry.num opAttributes, JEntry.vnode v] ++ encodePairs ps

def encodeOps (ops : List JOp) : List JEntry := ops.flatMap encodeOp

/-- Routing of one attribute pair: handler-shaped keys (starting `on`, ending
`$`) go to the property setter, everything else to the attribute setter. -/
def setPropOrAttr (h : Heap) (v : Nat) (k : String) (value : Val) : Heap :=
  if jsStartsWith k "on" && jsEndsWith k "$" then vnode_setProp h v k value
  else vnode_setAttr h v k value

/-- The spec-side meaning of one structured op: each opcode dispatched to the
corresponding tree primitive, a move decomposed as remove-without-cleanup
followed by insert-before, an attribute block folded pair by pair through the
routing. -/
def applyOp (h : Heap) : JOp → Heap
  | JOp.textSet n s => vnode_setText h n s
  | JOp.insert p n b => vnode_insertBefore h p n b
  | JOp.truncate p n => vnode_truncate h p n
  | JOp.remove p n => vnode_remove h p n true
  | JOp.move p n b => vnode_insertBefore (vnode_remove h p n false) p n b
  | JOp.attributes v ps => ps.foldl (fun h kv => setPropOrAttr h v kv.1 kv.2) h

/-- An entry list that does not begin with a raw string (so an attribute run
parsing stops exactly there). -/
def headNotStr : List JEntry → Prop
  | JEntry.str _ :: _ => False
  | _ => True

theorem valOfEntry_entryOfVal (v : Val) : valOfEntry (entryOfVal v) = v := by
  cases v <;> rfl

theorem headNotStr_encodeOps (ops : List JOp) : headNotStr (encodeOps ops) := by
  cases ops with
  | nil => simp [encodeOps, headNotStr]
  | cons op rest =>
    cases op <;> simp [encodeOps, encodeOp, headNotStr]

theorem applyAttrsRun_stop (js : List JEntry) (v : Nat) (h : Heap)
    (hjs : headNotStr js) : applyAttrsRun v js h = (h, js) := by
  match js with
  | [] => rfl
  | JEntry.str k :: rest => exact absurd hjs (by simp [headNotStr])
  | JEntry.num n :: rest => rfl
  | JEntry.vnode i :: rest => rfl
  | JEntry.nullv :: rest => rfl
  | JEntry.val w :: rest => rfl

theorem applyAttrsRun_encodePairs (v : Nat) :
    ∀ (ps : List (String × Val)) (rest : List JEntry) (h : Heap), headNotStr rest →
      applyAttrsRun v (encodePairs ps ++ rest) h =
        (ps.foldl (fun h kv => setPropOrAttr h v kv.1 kv.2) h, rest) := by
  intro ps
  induction ps with
  | nil =>
    intro rest h hrest
    simp only [encodePairs, List.flatMap_nil, List.nil_append]
    rw [applyAttrsRun_stop rest v h hrest]
    simp
  | cons kv ps ih =>
    intro rest h hrest
    obtain ⟨k, value⟩ := kv
    have henc : encodePairs ((k, value) :: ps) ++ rest =
        JEntry.str k :: entryOfVal value :: (encodePairs ps ++ rest) := by
      simp [encodePairs]
    rw [henc]
    have hstep : applyAttrsRun v
        (JEntry.str k :: entryOfVal value :: (encodePairs ps ++ rest)) h =
        applyAttrsRun v (encodePairs ps ++ rest)
          (if jsStartsWith k "on" && jsEndsWith k "$" then
            vnode_setProp h v k (valOfEntry (entryOfVal value))
          else vnode_setAttr h v k (valOfEntry (entryOfVal value))) := rfl
    rw [hstep, valOfEntry_entryOfVal]
    rw [show (if jsStartsWith k "on" && jsEndsWith k "$" then vnode_setProp h v k value
          else vnode_setAttr h v k value) = setPropOrAttr h v k value from rfl]
    rw [ih rest (setPropOrAttr h v k value) hrest]
    simp

theorem applyGo_encodeOp (op : JOp) (rest : List JEntry) (hrest : headNotStr rest)
    (h : Heap) : applyGo (encodeOp op ++ rest) h = applyGo rest (applyOp h op) := by
  cases op with
  | textSet n s =>
    rw [show encodeOp (JOp.textSet n s) ++ rest =
        JEntry.num opTextSet :: JEntry.vnode n :: JEntry.str s :: rest from rfl]
    rw [applyGo.eq_def]
    simp [applyOp, opTextSet, opInsert, opTruncate, opRemove, opMove, opAttributes]
  | insert p n b =>
    cases b with
    | none =>
      rw [show encodeOp (JOp.insert p n none) ++ rest =
          JEntry.num opInsert :: JEntry.vnode p :: JEntry.vnode n :: JEntry.nullv :: rest from rfl]
      rw [applyGo.eq_def]
      simp [applyOp, opTextSet, opInsert, opTruncate, opRemove, opMove, opAttributes]
    | some bb =>
      rw [show encodeOp (JOp.insert p n (some bb)) ++ rest =
          JEntry.num opInsert :: JEntry.vnode p :: JEntry.vnode n :: JEntry.vnode bb :: rest from rfl]
      rw [applyGo.eq_def]
      simp [applyOp, opTextSet, opInsert, opTruncate, opRemove, opMove, opAttributes]
  | truncate p n =>
    rw [show encodeOp (JOp.truncate p n) ++ rest =
        JEntry.num opTruncate :: JEntry.vnode p :: JEntry.vnode n :: rest from rfl]
    rw [applyGo.eq_def]
    simp [applyOp, opTextSet, opInsert, opTruncate, opRemove, opMove, opAttributes]
  | remove p n =>
    rw [show encodeOp (JOp.remove p n) ++ rest =
        JEntry.num opRemove :: JEntry.vnode p :: JEntry.vnode n :: rest from rfl]
    rw [applyGo.eq_def]
    simp [applyOp, opTextSet, opInsert, opTruncate, opRemove, opMove, opAttributes]
  | move p n b =>
    cases b with
    | none =>
      rw [show encodeOp (JOp.move p n none) ++ rest =
          JEntry.num opMove :: JEntry.vnode p :: JEntry.vnode n :: JEntry.nullv :: rest from rfl]
      rw [applyGo.eq_def]
      simp [applyOp, opTextSet, opInsert, opTruncate, opRemove, opMove, opAttributes]
    | some bb =>
      rw [show encodeOp (JOp.move p n (some bb)) ++ rest =
          JEntry.num opMove :: JEntry.vnode p :: JEntry.vnode n :: JEntry.vnode bb :: rest from rfl]
      rw [applyGo.eq_def]
      simp [applyOp, opTextSet, opInsert, opTruncate, opRemove, opMove, opAttributes]
  | attributes v ps =>
    rw [show encodeOp (JOp.attributes v ps) ++ rest =
        JEntry.num opAttributes :: JEntry.vnode v :: (encodePairs ps ++ rest) from by
      simp [encodeOp]]
    rw [applyGo.eq_def]
    simp only [opTextSet, opInsert, opTruncate, opRemove, opMove, opAttributes]
    rw [applyAttrsRun_encodePairs v ps rest h hrest]
    simp [applyOp]

theorem applyGo_encodeOps : ∀ (ops : List JOp) (h : Heap),
    applyGo (encodeOps ops) h = Except.ok (ops.foldl applyOp h) := by
  intro ops
  induction ops with
  | nil =>
    intro h
    rw [show encodeOps ([] : List JOp) = [] from rfl, applyGo.eq_def]
    simp
  | cons op rest ih =>
    intro h
    rw [show encodeOps (op :: rest) = encodeOp op ++ encodeOps rest from by
      simp [encodeOps]]
    rw [applyGo_encodeOp op (encodeOps rest) (headNotStr_encodeOps rest) h]
    rw [ih (applyOp h op)]
    simp

/-- Claim C8: the journal applier consumes an encoded journal in exactly one
pass in original append order, dispatching each opcode to the corresponding
tree primitive — `applyOp` decomposes a `Move` into remove-without-cleanup
followed by insert-before and routes each attribute pair of a run to the
property setter for handler-shaped keys (`on…$`) and the attribute setter
otherwise — and clears the journal (returns the empty journal array) when it
finishes: applying the encoding of any structured op list is exactly the left
fold of the spec-side interpreter over the ops. -/
theorem C8_apply_journal_refines_ops :
    ∀ (ops : List JOp) (h : Heap),
      vnode_applyJournal (encodeOps ops) h = Except.ok (ops.foldl applyOp h, []) := by
  intro ops h
  rw [vnode_applyJournal, applyGo_encodeOps ops h]
  rfl
